import Mathlib

/-!
# Verification of the durer unfolding core

The repository unfolds a closed triangulated polyhedron into a planar net.
`src/main.rs` is the driver; the geometric core (half-edge mesh construction,
dual-graph spanning tree, unfolding transform, layout statistics) lives in the
modules `half_edge.rs`, `goal_mesh.rs` and `utils.rs`, which are not among the
provided sources, so those components are modelled from the specification
(sections 3, 4 and 7 of spec.md) and marked as such.  Input geometry is
embedded with exact rational coordinates; planar output coordinates are real
numbers (square roots arise from the law-of-cosines placement).
-/

/-- 3D vertex position (spec §3 Vertex): three coordinates, here exact rationals. -/
structure Vec3Q where
  x : ℚ
  y : ℚ
  z : ℚ
deriving DecidableEq

/-- Raw mesh data (spec §6): an ordered vertex-position array and an ordered
list of triangular faces, each a triple of vertex indices. -/
structure MeshData where
  vertices : List Vec3Q
  faces : List (Nat × Nat × Nat)
deriving DecidableEq

/-- Modelled from the spec: the error taxonomy of §7 (the Rust error type is in
the missing `half_edge.rs`/`goal_mesh.rs` modules). -/
inductive UnfoldError where
  | InvalidFaceIndex
  | UnsupportedFaceArity
  | NonManifoldGeometry
  | SeedFaceOutOfRange
  | DegenerateFace
deriving DecidableEq

instance {ε α : Type} [DecidableEq ε] [DecidableEq α] : DecidableEq (Except ε α)
  | .error a, .error b =>
    decidable_of_iff (a = b) ⟨fun h => by rw [h], fun h => by injection h⟩
  | .error _, .ok _ => isFalse (fun h => Except.noConfusion h)
  | .ok _, .error _ => isFalse (fun h => Except.noConfusion h)
  | .ok a, .ok b =>
    decidable_of_iff (a = b) ⟨fun h => by rw [h], fun h => by injection h⟩

/-- Number of faces of the mesh. -/
def numFaces (m : MeshData) : Nat := m.faces.length

/-- Number of half-edges: three per triangular face (spec §4.1). -/
def numHe (m : MeshData) : Nat := 3 * m.faces.length

/-- The vertex-index triple of face `f` (junk default out of range). -/
def faceTriple (m : MeshData) (f : Nat) : Nat × Nat × Nat := m.faces.getD f (0, 0, 0)

/-- The face owning half-edge `h`: half-edges are laid out three per face. -/
def heFace (h : Nat) : Nat := h / 3

/-- Modelled from the spec: origin vertex index of half-edge `h` (spec §3
HalfEdge); the three half-edges of face `(a,b,c)` are directed `a→b`, `b→c`,
`c→a`, consistently with the face's winding (§4.1). -/
def heOrigin (m : MeshData) (h : Nat) : Nat :=
  if h % 3 = 0 then (faceTriple m (heFace h)).1
  else if h % 3 = 1 then (faceTriple m (heFace h)).2.1
  else (faceTriple m (heFace h)).2.2

/-- Modelled from the spec: destination vertex index of half-edge `h`. -/
def heDest (m : MeshData) (h : Nat) : Nat :=
  if h % 3 = 0 then (faceTriple m (heFace h)).2.1
  else if h % 3 = 1 then (faceTriple m (heFace h)).2.2
  else (faceTriple m (heFace h)).1

/-- The unordered vertex pair of a half-edge, used for twin pairing (§4.1). -/
def pairKey (m : MeshData) (h : Nat) : Nat × Nat :=
  (min (heOrigin m h) (heDest m h), max (heOrigin m h) (heDest m h))

/-- Modelled from the spec: twin of a half-edge — the other half-edge sharing
the same unordered vertex-index pair (§4.1), searched in index order. -/
def twinIdx (m : MeshData) (h : Nat) : Option Nat :=
  (List.range (numHe m)).find? (fun j => decide (j ≠ h ∧ pairKey m j = pairKey m h))

/-- The face adjacent to half-edge `h` across its twin, if any. -/
def twinFace (m : MeshData) (h : Nat) : Option Nat := (twinIdx m h).map heFace

/-- A face triple referencing a vertex index outside the vertex array. -/
def faceIndexBad (m : MeshData) (f : Nat × Nat × Nat) : Bool :=
  decide (m.vertices.length ≤ f.1 ∨ m.vertices.length ≤ f.2.1 ∨ m.vertices.length ≤ f.2.2)

/-- In the model the validated half-edge mesh owns exactly the input arrays;
all adjacency relations are index computations over them (spec §3). -/
abbrev HalfEdgeMesh := MeshData

/-- Modelled from the spec: HalfEdgeMesh construction (§4.1).  Fails with
`InvalidFaceIndex` if a face references a vertex index outside the vertex
array, with `NonManifoldGeometry` if more than two half-edges share one
unordered vertex pair; otherwise returns the validated mesh. -/
def buildMesh (md : MeshData) : Except UnfoldError HalfEdgeMesh :=
  if md.faces.any (faceIndexBad md) then .error .InvalidFaceIndex
  else if (List.range (numHe md)).any (fun h =>
      decide (3 ≤ (List.range (numHe md)).countP
        (fun j => decide (pairKey md j = pairKey md h)))) then
    .error .NonManifoldGeometry
  else .ok md

/-- A closed manifold mesh: every unordered vertex pair realized by a half-edge
is realized by exactly two half-edges (the edge and its twin, spec §3). -/
def closedManifold (m : MeshData) : Prop :=
  ∀ h, h < numHe m →
    ((Finset.range (numHe m)).filter (fun j => pairKey m j = pairKey m h)).card = 2

instance (m : MeshData) : Decidable (closedManifold m) := by
  unfold closedManifold; infer_instance

/-- The regular tetrahedron of spec §8, used as a concrete witness mesh. -/
def tetMesh : MeshData :=
  { vertices := [⟨1,1,1⟩, ⟨1,-1,-1⟩, ⟨-1,1,-1⟩, ⟨-1,-1,1⟩]
    faces := [(0,1,2), (0,3,1), (0,2,3), (1,3,2)] }

/-- A mesh whose single face references vertex index 3 = vertex count. -/
def badIndexMesh : MeshData :=
  { vertices := [⟨0,0,0⟩, ⟨1,0,0⟩, ⟨0,1,0⟩]
    faces := [(0,1,3)] }

/-- Node of the dual-graph spanning tree (spec §3 DualNode): a face together
with its optional parent (parent face index, shared half-edge of the parent). -/
structure STNode where
  face : Nat
  parent : Option (Nat × Nat)
deriving DecidableEq

/-- The faces of a tree node list, in visit order. -/
def treeFaces (t : List STNode) : List Nat := t.map (·.face)

/-- Modelled from the spec: the first half-edge (in index order) leading from
an already-visited face to face `f`, recorded as (parent face, half-edge)
(spec §4.2: fixed index order makes the traversal deterministic). -/
def findParentEdge (m : MeshData) (visited : List Nat) (f : Nat) : Option (Nat × Nat) :=
  ((List.range (numHe m)).find?
    (fun h => decide (heFace h ∈ visited ∧ twinFace m h = some f))).map
    (fun h => (heFace h, h))

/-- One candidate-face step of a traversal round: a face not yet in the tree
that borders an already-visited face is appended with that parent edge. -/
def gStep (m : MeshData) (visited : List Nat) (acc : List STNode) (f : Nat) : List STNode :=
  if f ∈ treeFaces acc then acc
  else
    match findParentEdge m visited f with
    | some ph => acc ++ [⟨f, some ph⟩]
    | none => acc

/-- Modelled from the spec: one deterministic traversal round of the
spanning-tree builder (§4.2): every face index is considered in increasing
order and adopted if it borders a face already in the tree. -/
def growRound (m : MeshData) (t : List STNode) : List STNode :=
  (List.range (numFaces m)).foldl (gStep m (treeFaces t)) t

/-- Iterated traversal rounds. -/
def iterGrow (m : MeshData) : Nat → List STNode → List STNode
  | 0, t => t
  | k + 1, t => iterGrow m k (growRound m t)

/-- Modelled from the spec: DualGraphSpanningTree construction (§4.2): fails
with `SeedFaceOutOfRange` on an invalid seed, otherwise grows the tree from
the seed face until the seed's connected component is exhausted. -/
def spanTreeE (m : MeshData) (seed : Nat) : Except UnfoldError (List STNode) :=
  if seed < numFaces m then .ok (iterGrow m (numFaces m) [⟨seed, none⟩])
  else .error .SeedFaceOutOfRange

/-- Face adjacency in the dual graph: some half-edge of `p` has its twin in `f`. -/
def adjF (m : MeshData) (p f : Nat) : Prop :=
  ∃ h, h < numHe m ∧ heFace h = p ∧ twinFace m h = some f

/-- Faces reachable from the seed via face adjacency (the seed's connected
component of the dual graph). -/
inductive Reach (m : MeshData) (s : Nat) : Nat → Prop
  | base : Reach m s s
  | step {p g : Nat} : Reach m s p → adjF m p g → Reach m s g

/-- A tree node is well-parented w.r.t. the faces placed before it. -/
def nodeOK (m : MeshData) (seen : List Nat) (nd : STNode) : Prop :=
  ∀ p h, nd.parent = some (p, h) →
    p ∈ seen ∧ h < numHe m ∧ heFace h = p ∧ twinFace m h = some nd.face

/-- Every node's parent was placed strictly earlier, and the recorded
half-edge realizes an actual shared edge between parent and child. -/
def ParentsOK (m : MeshData) : List Nat → List STNode → Prop
  | _, [] => True
  | seen, nd :: rest => nodeOK m seen nd ∧ ParentsOK m (seen ++ [nd.face]) rest

/-- Structural invariant of the growing spanning tree: parents are placed
before their children with a real shared edge, faces are distinct, and all
faces are in range. -/
def GInv (m : MeshData) (t : List STNode) : Prop :=
  ParentsOK m [] t ∧ (treeFaces t).Nodup ∧ ∀ f ∈ treeFaces t, f < numFaces m

/-- The tree has the seed at its head with no parent; all later nodes are
parented. -/
def RootedAt (seed : Nat) (t : List STNode) : Prop :=
  ∃ rest, t = ⟨seed, none⟩ :: rest ∧ ∀ nd ∈ rest, nd.parent ≠ none

/-- The parent relation recorded in a tree: `a` is the parent of face `b`. -/
def parentRel (t : List STNode) (a b : Nat) : Prop :=
  ∃ nd ∈ t, nd.face = b ∧ ∃ h, nd.parent = some (a, h)

/-- The spanning tree of the tetrahedron, seeded at face 0. -/
def tetTree : List STNode := iterGrow tetMesh (numFaces tetMesh) [⟨0, none⟩]

/-- Position of vertex `v` (junk default out of range). -/
def vpos (m : MeshData) (v : Nat) : Vec3Q := m.vertices.getD v ⟨0, 0, 0⟩

/-- Squared 3D distance between two vertices (exact rational). -/
def d3 (m : MeshData) (a b : Nat) : ℚ :=
  ((vpos m a).x - (vpos m b).x) ^ 2 + ((vpos m a).y - (vpos m b).y) ^ 2 +
    ((vpos m a).z - (vpos m b).z) ^ 2

/-- Heron-style degeneracy functional on three squared edge lengths:
`16·(triangle area)²` when the arguments are the squared side lengths. -/
def heronQ (x y z : ℚ) : ℚ := 2*x*y + 2*y*z + 2*z*x - x^2 - y^2 - z^2

/-- The degeneracy check of a face: Heron functional of its three squared
slot-pairwise edge lengths (positive iff the triangle has positive area). -/
def heron3 (m : MeshData) (f : Nat) : ℚ :=
  heronQ (d3 m (faceTriple m f).1 (faceTriple m f).2.1)
    (d3 m (faceTriple m f).2.1 (faceTriple m f).2.2)
    (d3 m (faceTriple m f).2.2 (faceTriple m f).1)

/-- Planar point of the unfolded net (real coordinates). -/
structure V2 where
  x : ℝ
  y : ℝ

/-- Squared planar distance. -/
def sq2 (P Q : V2) : ℝ := (Q.x - P.x) ^ 2 + (Q.y - P.y) ^ 2

/-- Barycentric abscissa of the apex along the shared edge (law of cosines). -/
def alphaQ (e dU dV : ℚ) : ℚ := (e + dU - dV) / (2 * e)

/-- Squared relative height of the apex over the shared edge. -/
def discQ (e dU dV : ℚ) : ℚ := dU / e - alphaQ e dU dV ^ 2

/-- Modelled from the spec: law-of-cosines apex placement (§9): starting from
the placed shared-edge endpoints `P`, `Q`, the apex sits at abscissa `alphaQ`
along the edge and height `±√discQ` across it, on the side selected by `s`. -/
noncomputable def placeApex (P Q : V2) (e dU dV : ℚ) (s : ℝ) : V2 :=
  ⟨P.x + (alphaQ e dU dV : ℝ) * (Q.x - P.x) +
      s * Real.sqrt ((discQ e dU dV : ℚ)) * (-(Q.y - P.y)),
    P.y + (alphaQ e dU dV : ℝ) * (Q.y - P.y) +
      s * Real.sqrt ((discQ e dU dV : ℚ)) * (Q.x - P.x)⟩

/-- An unfolded face (spec §3 UnfoldedFace): the face index and its three
planar points, one per vertex slot in original order. -/
structure NetEntry where
  face : Nat
  p1 : V2
  p2 : V2
  p3 : V2

/-- Placed position of vertex id `v` in an entry (first matching slot). -/
def lookupPos (m : MeshData) (en : NetEntry) (v : Nat) : V2 :=
  if (faceTriple m en.face).1 = v then en.p1
  else if (faceTriple m en.face).2.1 = v then en.p2
  else if (faceTriple m en.face).2.2 = v then en.p3
  else ⟨0, 0⟩

/-- The vertex of triple `t` not on the shared edge `{u, v}` (first slot not
matching either, junk when none exists). -/
def freeVertex (t : Nat × Nat × Nat) (u v : Nat) : Nat :=
  if t.1 ≠ u ∧ t.1 ≠ v then t.1
  else if t.2.1 ≠ u ∧ t.2.1 ≠ v then t.2.1
  else t.2.2

/-- Modelled from the spec: canonical root placement (§4.4): first vertex at
the origin, second on the positive x-axis at the original edge length, apex by
law of cosines above the axis. -/
noncomputable def rootEntry (m : MeshData) (f : Nat) : NetEntry :=
  { face := f
    p1 := ⟨0, 0⟩
    p2 := ⟨Real.sqrt ((d3 m (faceTriple m f).1 (faceTriple m f).2.1 : ℚ)), 0⟩
    p3 := placeApex ⟨0, 0⟩
      ⟨Real.sqrt ((d3 m (faceTriple m f).1 (faceTriple m f).2.1 : ℚ)), 0⟩
      (d3 m (faceTriple m f).1 (faceTriple m f).2.1)
      (d3 m (faceTriple m f).1 (faceTriple m f).2.2)
      (d3 m (faceTriple m f).2.1 (faceTriple m f).2.2) 1 }

/-- Side sign: `-1` when the reference point `R` (the parent's free vertex)
lies on the positive side of the directed edge `Pu → Pv`, else `1`; the child
apex then opens on the opposite side (spec §4.3). -/
noncomputable def sideSign (Pu Pv R : V2) : ℝ :=
  if 0 < (R.x - Pu.x) * (-(Pv.y - Pu.y)) + (R.y - Pu.y) * (Pv.x - Pu.x) then -1 else 1

/-- Modelled from the spec: the child's free-vertex position (§4.3/§9):
law-of-cosines placement from the child's own 3D squared edge lengths,
rigidly attached to the parent's placed shared edge, away from the parent. -/
noncomputable def childApex (m : MeshData) (pe : NetEntry) (c h : Nat) : V2 :=
  placeApex (lookupPos m pe (heOrigin m h)) (lookupPos m pe (heDest m h))
    (d3 m (heOrigin m h) (heDest m h))
    (d3 m (heOrigin m h) (freeVertex (faceTriple m c) (heOrigin m h) (heDest m h)))
    (d3 m (heDest m h) (freeVertex (faceTriple m c) (heOrigin m h) (heDest m h)))
    (sideSign (lookupPos m pe (heOrigin m h)) (lookupPos m pe (heDest m h))
      (lookupPos m pe (freeVertex (faceTriple m pe.face) (heOrigin m h) (heDest m h))))

/-- Placement of one child slot: shared vertices copy the parent's placed
positions exactly, the free vertex gets the apex position. -/
noncomputable def slotPos (m : MeshData) (pe : NetEntry) (c h : Nat) (v : Nat) : V2 :=
  if v = heOrigin m h then lookupPos m pe (heOrigin m h)
  else if v = heDest m h then lookupPos m pe (heDest m h)
  else childApex m pe c h

/-- Modelled from the spec: UnfoldTransform output for a child face (§4.3). -/
noncomputable def childEntry (m : MeshData) (pe : NetEntry) (c h : Nat) : NetEntry :=
  { face := c
    p1 := slotPos m pe c h (faceTriple m c).1
    p2 := slotPos m pe c h (faceTriple m c).2.1
    p3 := slotPos m pe c h (faceTriple m c).2.2 }

noncomputable def junkEntry : NetEntry := ⟨0, ⟨0, 0⟩, ⟨0, 0⟩, ⟨0, 0⟩⟩

/-- The already-placed entry of face `p` (first match; junk when absent). -/
noncomputable def findEntry (acc : List NetEntry) (p : Nat) : NetEntry :=
  (acc.find? (fun en => en.face == p)).getD junkEntry

/-- Place one tree node given the accumulated entries. -/
noncomputable def mkEntry (m : MeshData) (acc : List NetEntry) (nd : STNode) : NetEntry :=
  match nd.parent with
  | none => rootEntry m nd.face
  | some (p, h) => childEntry m (findEntry acc p) nd.face h

noncomputable def netStepP (m : MeshData) (acc : List NetEntry) (nd : STNode) :
    List NetEntry :=
  acc ++ [mkEntry m acc nd]

/-- The placed entries of all tree nodes, in tree order (total function). -/
noncomputable def netEntries (m : MeshData) (t : List STNode) : List NetEntry :=
  t.foldl (netStepP m) []

/-- Modelled from the spec: one NetBuilder step (§4.4): fail with
`DegenerateFace` when the face's triangle is degenerate (§4.3), otherwise
append its placement. -/
noncomputable def netStepE (m : MeshData) (st : Except UnfoldError (List NetEntry))
    (nd : STNode) : Except UnfoldError (List NetEntry) :=
  match st with
  | .error err => .error err
  | .ok acc =>
    if 0 < heron3 m nd.face then .ok (netStepP m acc nd) else .error .DegenerateFace

/-- Modelled from the spec: NetBuilder (§4.4): walk the spanning tree in its
deterministic order, placing the root canonically and every child by
UnfoldTransform against its already-placed parent. -/
noncomputable def netBuildE (m : MeshData) (t : List STNode) :
    Except UnfoldError (List NetEntry) :=
  t.foldl (netStepE m) (.ok [])

/-- All degeneracy checks of the tree's faces pass (decidable). -/
def netResultOk (m : MeshData) (t : List STNode) : Bool :=
  t.all (fun nd => decide (0 < heron3 m nd.face))

/-- Flat output sequence: three planar points per face, in tree order and
per-face source vertex order (spec §4.4). -/
def flatPts (es : List NetEntry) : List V2 :=
  es.flatMap (fun en => [en.p1, en.p2, en.p3])

/-- Modelled from the spec: the full unfolding pipeline of `GoalMesh::unfold`
(§2 data flow): mesh construction, spanning tree from the seed, net build. -/
noncomputable def unfoldPipeline (md : MeshData) (seed : Nat) :
    Except UnfoldError (List V2) :=
  match buildMesh md with
  | .error err => .error err
  | .ok m =>
    match spanTreeE m seed with
    | .error err => .error err
    | .ok t =>
      match netBuildE m t with
      | .error err => .error err
      | .ok es => .ok (flatPts es)

def sub3 (a b : Vec3Q) : Vec3Q := ⟨a.x - b.x, a.y - b.y, a.z - b.z⟩

def cross3 (u w : Vec3Q) : Vec3Q :=
  ⟨u.y * w.z - u.z * w.y, u.z * w.x - u.x * w.z, u.x * w.y - u.y * w.x⟩

def normSq3 (u : Vec3Q) : ℚ := u.x ^ 2 + u.y ^ 2 + u.z ^ 2

/-- Cross product of the two edge vectors of face `f` out of its first vertex. -/
def faceCross (m : MeshData) (f : Nat) : Vec3Q :=
  cross3 (sub3 (vpos m (faceTriple m f).2.1) (vpos m (faceTriple m f).1))
    (sub3 (vpos m (faceTriple m f).2.2) (vpos m (faceTriple m f).1))

/-- The three 3D vertices of face `f` are collinear (zero cross product,
i.e. exactly zero triangle area). -/
def collinearFace (m : MeshData) (f : Nat) : Prop := faceCross m f = ⟨0, 0, 0⟩

instance (m : MeshData) (f : Nat) : Decidable (collinearFace m f) := by
  unfold collinearFace; infer_instance

/-- A two-component mesh: face 0 is a proper triangle, face 1 is collinear
and unreachable from face 0. -/
def disconnectedMesh : MeshData :=
  { vertices := [⟨0,0,0⟩, ⟨1,0,0⟩, ⟨0,1,0⟩, ⟨0,0,0⟩, ⟨1,0,0⟩, ⟨2,0,0⟩]
    faces := [(0,1,2), (3,4,5)] }

/-- A single collinear triangle. -/
def collinearMesh : MeshData :=
  { vertices := [⟨0,0,0⟩, ⟨1,0,0⟩, ⟨2,0,0⟩]
    faces := [(0,1,2)] }

/-- A placed entry is geometrically correct: its face passed the degeneracy
check and the placed squared distances reproduce the 3D squared distances of
the face's vertices, slot by slot. -/
def entryGood (m : MeshData) (en : NetEntry) : Prop :=
  0 < heron3 m en.face ∧
    sq2 en.p1 en.p2 =
      ((d3 m (faceTriple m en.face).1 (faceTriple m en.face).2.1 : ℚ) : ℝ) ∧
    sq2 en.p2 en.p3 =
      ((d3 m (faceTriple m en.face).2.1 (faceTriple m en.face).2.2 : ℚ) : ℝ) ∧
    sq2 en.p1 en.p3 =
      ((d3 m (faceTriple m en.face).1 (faceTriple m en.face).2.2 : ℚ) : ℝ)

/-- The faces of a list of placed entries, in order. -/
def entryFaces (es : List NetEntry) : List Nat := es.map (·.face)

/-- Modelled from the spec: LayoutStats `find_extents` (§4.5; `utils.rs` is
not among the sources): the axis-aligned bounding width and height, max minus
min of the x and y coordinates over all points; `(0, 0)` on empty input. -/
noncomputable def find_extents (pts : List V2) : ℝ × ℝ :=
  match pts with
  | [] => (0, 0)
  | p :: rest =>
    (rest.foldl (fun acc q => max acc q.x) p.x -
        rest.foldl (fun acc q => min acc q.x) p.x,
      rest.foldl (fun acc q => max acc q.y) p.y -
        rest.foldl (fun acc q => min acc q.y) p.y)

/-- Modelled from the spec: LayoutStats `find_centroid` (§4.5): the
arithmetic mean of all points (the origin on empty input, since division by
zero yields zero in the real field model). -/
noncomputable def find_centroid (pts : List V2) : V2 :=
  ⟨(pts.map (·.x)).sum / pts.length, (pts.map (·.y)).sum / pts.length⟩

/-- The rendering transform of `setup` (src/main.rs lines 99–108): each point
is replaced by (p − centroid) · s with s = (resolution − 100) / max(width,
height), the padding constant 100 taken from the source. -/
noncomputable def scaledNet (pts : List V2) (resolution : ℝ) : List V2 :=
  pts.map (fun p =>
    ⟨(p.x - (find_centroid pts).x) *
        ((resolution - 100) / max (find_extents pts).1 (find_extents pts).2),
      (p.y - (find_centroid pts).y) *
        ((resolution - 100) / max (find_extents pts).1 (find_extents pts).2)⟩)

/-- The program's unfold invocation: always seeded at face index 0
(src/main.rs line 96). -/
noncomputable def programUnfold (md : MeshData) : Except UnfoldError (List V2) :=
  unfoldPipeline md 0

/-- Claim C7: a face referencing a vertex index outside the vertex array makes
HalfEdgeMesh construction fail with `InvalidFaceIndex`, and no mesh value is
produced on failure. -/
theorem buildMesh_invalid_face_index (md : MeshData)
    (hbad : ∃ f ∈ md.faces, md.vertices.length ≤ f.1 ∨ md.vertices.length ≤ f.2.1 ∨
      md.vertices.length ≤ f.2.2) :
    buildMesh md = .error .InvalidFaceIndex ∧ ∀ m : HalfEdgeMesh, buildMesh md ≠ .ok m := by
  have hany : md.faces.any (faceIndexBad md) = true := by
    rcases hbad with ⟨f, hf, hcond⟩
    exact List.any_eq_true.mpr ⟨f, hf, by simpa [faceIndexBad] using hcond⟩
  refine ⟨by simp [buildMesh, hany], ?_⟩
  intro m h
  rw [buildMesh] at h
  simp [hany] at h

/-- Witness for C7 at a concrete off-by-one mesh. -/
theorem buildMesh_invalid_face_index_witness :
    buildMesh badIndexMesh = .error .InvalidFaceIndex ∧
      ∀ m : HalfEdgeMesh, buildMesh badIndexMesh ≠ .ok m :=
  buildMesh_invalid_face_index badIndexMesh (by decide)

/-- Membership of `h` in its own pair-key fibre. -/
theorem mem_pair_fibre (m : MeshData) (h : Nat) (hh : h < numHe m) :
    h ∈ (Finset.range (numHe m)).filter (fun j => pairKey m j = pairKey m h) := by
  simp [Finset.mem_filter, Finset.mem_range, hh]

/-- Claim C3: in a closed-manifold mesh accepted by construction, every
half-edge has exactly one twin, and the twin relation is an involution. -/
theorem twin_involution (md : MeshData) (m : HalfEdgeMesh)
    (hacc : buildMesh md = .ok m) (hcm : closedManifold m) :
    ∀ h, h < numHe m → ∃ j, twinIdx m h = some j ∧ twinIdx m j = some h ∧
      ∀ k, k < numHe m → k ≠ h → pairKey m k = pairKey m h → k = j := by
  intro h hh
  have hcard := hcm h hh
  have hmem := mem_pair_fibre m h hh
  rcases Finset.card_eq_two.mp hcard with ⟨x, y, hxy, hset⟩
  -- the fibre is {h, j} for a unique j ≠ h
  have hfib : ∀ k, k < numHe m → pairKey m k = pairKey m h → k = x ∨ k = y := by
    intro k hk hkey
    have : k ∈ (Finset.range (numHe m)).filter (fun j => pairKey m j = pairKey m h) := by
      simp [Finset.mem_filter, Finset.mem_range, hk, hkey]
    rw [hset] at this
    simpa using this
  have hxmem : x ∈ (Finset.range (numHe m)).filter (fun j => pairKey m j = pairKey m h) := by
    rw [hset]; simp
  have hymem : y ∈ (Finset.range (numHe m)).filter (fun j => pairKey m j = pairKey m h) := by
    rw [hset]; simp
  have hxlt : x < numHe m := by
    have := Finset.mem_filter.mp hxmem; simpa using (Finset.mem_range.mp this.1)
  have hylt : y < numHe m := by
    have := Finset.mem_filter.mp hymem; simpa using (Finset.mem_range.mp this.1)
  have hxkey : pairKey m x = pairKey m h := by simpa using (Finset.mem_filter.mp hxmem).2
  have hykey : pairKey m y = pairKey m h := by simpa using (Finset.mem_filter.mp hymem).2
  have hhxy : h = x ∨ h = y := by
    rw [hset] at hmem; simpa using hmem
  -- j is the element of {x,y} other than h
  obtain ⟨j, hjne, hjkey, hjlt, huniq⟩ :
      ∃ j, j ≠ h ∧ pairKey m j = pairKey m h ∧ j < numHe m ∧
        ∀ k, k < numHe m → k ≠ h → pairKey m k = pairKey m h → k = j := by
    rcases hhxy with hx | hy
    · subst hx
      refine ⟨y, Ne.symm hxy, hykey, hylt, ?_⟩
      intro k hk hkne hkey
      rcases hfib k hk hkey with h1 | h1
      · exact absurd h1 hkne
      · exact h1
    · subst hy
      refine ⟨x, hxy, hxkey, hxlt, ?_⟩
      intro k hk hkne hkey
      rcases hfib k hk hkey with h1 | h1
      · exact h1
      · exact absurd h1 hkne
  -- twinIdx m h returns some twin, which by uniqueness is j
  have hsome : (twinIdx m h).isSome = true := by
    rw [twinIdx, List.find?_isSome]
    exact ⟨j, by simp [List.mem_range, hjlt], decide_eq_true ⟨hjne, hjkey⟩⟩
  obtain ⟨j', hj'⟩ := Option.isSome_iff_exists.mp hsome
  have hj'find : (List.range (numHe m)).find?
      (fun j => decide (j ≠ h ∧ pairKey m j = pairKey m h)) = some j' := by
    rw [twinIdx] at hj'; exact hj'
  have hj'prop : j' ≠ h ∧ pairKey m j' = pairKey m h := by
    simpa using List.find?_some hj'find
  have hj'lt : j' < numHe m := by simpa using List.mem_of_find?_eq_some hj'find
  have hj'ne : j' ≠ h := hj'prop.1
  have hj'key : pairKey m j' = pairKey m h := hj'prop.2
  have hj'eq : j' = j := huniq j' hj'lt hj'ne hj'key
  subst hj'eq
  refine ⟨j', hj', ?_, fun k hk hkne hkey => huniq k hk hkne hkey⟩
  -- twin of the twin: the fibre of j' equals that of h, whose only member ≠ j' is h
  have hsome2 : (twinIdx m j').isSome = true := by
    rw [twinIdx, List.find?_isSome]
    exact ⟨h, by simp [List.mem_range, hh],
      decide_eq_true ⟨Ne.symm hj'ne, hj'key.symm⟩⟩
  obtain ⟨k, hk⟩ := Option.isSome_iff_exists.mp hsome2
  have hkfind : (List.range (numHe m)).find?
      (fun i => decide (i ≠ j' ∧ pairKey m i = pairKey m j')) = some k := by
    rw [twinIdx] at hk; exact hk
  have hkprop : k ≠ j' ∧ pairKey m k = pairKey m j' := by
    simpa using List.find?_some hkfind
  have hkmem : k < numHe m := by simpa using List.mem_of_find?_eq_some hkfind
  have hkkey : pairKey m k = pairKey m h := hkprop.2.trans hj'key
  have hkh : k = h := by
    by_contra hne
    exact hkprop.1 (huniq k hkmem hne hkkey)
  rw [hk, hkh]

/-- Witness for C3 at the regular tetrahedron (spec §8). -/
theorem twin_involution_witness :
    closedManifold tetMesh ∧
      ∃ j, twinIdx tetMesh 0 = some j ∧ twinIdx tetMesh j = some 0 ∧
        ∀ k, k < numHe tetMesh → k ≠ 0 → pairKey tetMesh k = pairKey tetMesh 0 → k = j :=
  ⟨by decide, twin_involution tetMesh tetMesh rfl (by decide) 0 (by decide)⟩

@[simp] theorem treeFaces_nil : treeFaces [] = [] := rfl

@[simp] theorem treeFaces_cons (nd : STNode) (t : List STNode) :
    treeFaces (nd :: t) = nd.face :: treeFaces t := rfl

@[simp] theorem treeFaces_append (t s : List STNode) :
    treeFaces (t ++ s) = treeFaces t ++ treeFaces s := List.map_append _ _ _

theorem parentsOK_append_singleton (m : MeshData) (nd : STNode) :
    ∀ (l : List STNode) (seen : List Nat),
      ParentsOK m seen (l ++ [nd]) ↔
        ParentsOK m seen l ∧ nodeOK m (seen ++ treeFaces l) nd := by
  intro l
  induction l with
  | nil => intro seen; simp [ParentsOK]
  | cons a l ih =>
    intro seen
    simp only [List.cons_append, ParentsOK, treeFaces_cons, List.append_eq]
    rw [ih]
    constructor
    · rintro ⟨h1, h2, h3⟩
      exact ⟨⟨h1, h2⟩, by simpa [List.append_assoc] using h3⟩
    · rintro ⟨⟨h1, h2⟩, h3⟩
      exact ⟨h1, h2, by simpa [List.append_assoc] using h3⟩

theorem nodeOK_mono (m : MeshData) (s1 s2 : List Nat) (nd : STNode)
    (hsub : ∀ x, x ∈ s1 → x ∈ s2) (h : nodeOK m s1 nd) : nodeOK m s2 nd := by
  intro p he hp
  obtain ⟨h1, h2, h3, h4⟩ := h p he hp
  exact ⟨hsub p h1, h2, h3, h4⟩

/-- `gStep` only appends, and every appended node carries a parent. -/
theorem gStep_extend (m : MeshData) (vis : List Nat) (acc : List STNode) (f : Nat) :
    ∃ ext, gStep m vis acc f = acc ++ ext ∧
      ∀ nd ∈ ext, ∃ p h, nd.parent = some (p, h) := by
  unfold gStep
  split
  · exact ⟨[], by simp⟩
  · cases hfind : findParentEdge m vis f with
    | none => exact ⟨[], by simp⟩
    | some ph =>
      refine ⟨[⟨f, some ph⟩], rfl, ?_⟩
      intro nd hnd
      simp only [List.mem_singleton] at hnd
      subst hnd
      exact ⟨ph.1, ph.2, by simp⟩

/-- A traversal-round fold only appends parented nodes. -/
theorem foldl_gStep_extend (m : MeshData) (vis : List Nat) :
    ∀ (fs : List Nat) (acc : List STNode),
      ∃ ext, fs.foldl (gStep m vis) acc = acc ++ ext ∧
        ∀ nd ∈ ext, ∃ p h, nd.parent = some (p, h) := by
  intro fs
  induction fs with
  | nil => intro acc; exact ⟨[], by simp⟩
  | cons f fs ih =>
    intro acc
    obtain ⟨e1, he1, hp1⟩ := gStep_extend m vis acc f
    obtain ⟨e2, he2, hp2⟩ := ih (gStep m vis acc f)
    rw [he1] at he2
    refine ⟨e1 ++ e2, ?_, ?_⟩
    · rw [List.foldl_cons, he1, he2, List.append_assoc]
    · intro nd hnd
      rcases List.mem_append.mp hnd with h | h
      · exact hp1 nd h
      · exact hp2 nd h

theorem growRound_extend (m : MeshData) (t : List STNode) :
    ∃ ext, growRound m t = t ++ ext ∧ ∀ nd ∈ ext, ∃ p h, nd.parent = some (p, h) :=
  foldl_gStep_extend m (treeFaces t) (List.range (numFaces m)) t

theorem mem_treeFaces_growRound (m : MeshData) (t : List STNode) (f : Nat)
    (hf : f ∈ treeFaces t) : f ∈ treeFaces (growRound m t) := by
  obtain ⟨ext, hext, -⟩ := growRound_extend m t
  rw [hext, treeFaces_append]
  exact List.mem_append_left _ hf

theorem mem_treeFaces_iterGrow (m : MeshData) :
    ∀ (k : Nat) (t : List STNode) (f : Nat),
      f ∈ treeFaces t → f ∈ treeFaces (iterGrow m k t) := by
  intro k
  induction k with
  | zero => intro t f hf; exact hf
  | succ k ih => intro t f hf; exact ih _ f (mem_treeFaces_growRound m t f hf)

theorem findParentEdge_some (m : MeshData) (vis : List Nat) (f : Nat) (p h : Nat)
    (hfind : findParentEdge m vis f = some (p, h)) :
    p ∈ vis ∧ h < numHe m ∧ heFace h = p ∧ twinFace m h = some f := by
  unfold findParentEdge at hfind
  cases hf : (List.range (numHe m)).find?
      (fun h => decide (heFace h ∈ vis ∧ twinFace m h = some f)) with
  | none => rw [hf] at hfind; simp at hfind
  | some h0 =>
    rw [hf] at hfind
    simp only [Option.map_some'] at hfind
    have hprop : heFace h0 ∈ vis ∧ twinFace m h0 = some f := by
      simpa using List.find?_some hf
    have hlt : h0 < numHe m := by simpa using List.mem_of_find?_eq_some hf
    injection hfind with hpair
    obtain ⟨h1, h2⟩ := Prod.mk.injEq _ _ _ _ ▸ hpair
    subst h1
    subst h2
    exact ⟨hprop.1, hlt, rfl, hprop.2⟩

theorem gStep_inv (m : MeshData) (vis : List Nat) (acc : List STNode) (f : Nat)
    (hvis : ∀ x ∈ vis, x ∈ treeFaces acc) (hinv : GInv m acc) (hf : f < numFaces m) :
    GInv m (gStep m vis acc f) ∧ ∀ x ∈ vis, x ∈ treeFaces (gStep m vis acc f) := by
  obtain ⟨hP, hN, hB⟩ := hinv
  unfold gStep
  split
  · exact ⟨⟨hP, hN, hB⟩, hvis⟩
  · rename_i hmem
    cases hfind : findParentEdge m vis f with
    | none => exact ⟨⟨hP, hN, hB⟩, hvis⟩
    | some ph =>
      obtain ⟨p, h⟩ := ph
      obtain ⟨hp, hlt, hface, htwin⟩ := findParentEdge_some m vis f p h hfind
      refine ⟨⟨?_, ?_, ?_⟩, ?_⟩
      · rw [parentsOK_append_singleton]
        refine ⟨hP, ?_⟩
        intro p' h' hpar
        have hpar' : some (p, h) = some (p', h') := hpar
        simp only [Option.some.injEq, Prod.mk.injEq] at hpar'
        obtain ⟨h1, h2⟩ := hpar'
        subst h1
        subst h2
        exact ⟨by simpa using hvis p hp, hlt, hface, htwin⟩
      · simp only [treeFaces_append, treeFaces_cons, treeFaces_nil, List.nodup_append]
        exact ⟨hN, by simp, by intro x hx hx'; simp at hx'; subst hx'; exact hmem hx⟩
      · intro g hg
        have hg2 : g ∈ treeFaces acc ∨ g = f := by simpa using hg
        rcases hg2 with hg3 | hg3
        · exact hB g hg3
        · subst hg3; exact hf
      · intro x hx
        simp only [treeFaces_append]
        exact List.mem_append_left _ (hvis x hx)

theorem foldl_gStep_inv (m : MeshData) (vis : List Nat) :
    ∀ (fs : List Nat) (acc : List STNode), (∀ f ∈ fs, f < numFaces m) →
      GInv m acc → (∀ x ∈ vis, x ∈ treeFaces acc) →
      GInv m (fs.foldl (gStep m vis) acc) := by
  intro fs
  induction fs with
  | nil => intro acc _ hinv _; exact hinv
  | cons f fs ih =>
    intro acc hfs hinv hvis
    obtain ⟨hinv', hvis'⟩ := gStep_inv m vis acc f hvis hinv (hfs f (by simp))
    exact ih _ (fun g hg => hfs g (by simp [hg])) hinv' hvis'

theorem growRound_inv (m : MeshData) (t : List STNode) (hinv : GInv m t) :
    GInv m (growRound m t) :=
  foldl_gStep_inv m (treeFaces t) (List.range (numFaces m)) t
    (fun f hf => List.mem_range.mp hf) hinv (fun _ hx => hx)

theorem iterGrow_inv (m : MeshData) :
    ∀ (k : Nat) (t : List STNode), GInv m t → GInv m (iterGrow m k t) := by
  intro k
  induction k with
  | zero => intro t h; exact h
  | succ k ih => intro t h; exact ih _ (growRound_inv m t h)

theorem growRound_rooted (m : MeshData) (seed : Nat) (t : List STNode)
    (hr : RootedAt seed t) : RootedAt seed (growRound m t) := by
  obtain ⟨rest, hrest, hp⟩ := hr
  obtain ⟨ext, hext, hpe⟩ := growRound_extend m t
  refine ⟨rest ++ ext, by rw [hext, hrest]; simp, ?_⟩
  intro nd hnd
  rcases List.mem_append.mp hnd with h | h
  · exact hp nd h
  · obtain ⟨p, he, hpar⟩ := hpe nd h
    simp [hpar]

theorem iterGrow_rooted (m : MeshData) (seed : Nat) :
    ∀ (k : Nat) (t : List STNode), RootedAt seed t → RootedAt seed (iterGrow m k t) := by
  intro k
  induction k with
  | zero => intro t h; exact h
  | succ k ih => intro t h; exact ih _ (growRound_rooted m seed t h)

theorem iter_add (m : MeshData) :
    ∀ (a b : Nat) (t : List STNode),
      iterGrow m (a + b) t = iterGrow m b (iterGrow m a t) := by
  intro a
  induction a with
  | zero => intro b t; simp [iterGrow, Nat.zero_add]
  | succ a ih =>
    intro b t
    rw [Nat.succ_add]
    show iterGrow m (a + b) (growRound m t) = iterGrow m b (iterGrow m (a + 1) t)
    rw [ih]
    rfl

theorem stable_iterGrow (m : MeshData) (t : List STNode) (hst : growRound m t = t) :
    ∀ k, iterGrow m k t = t := by
  intro k
  induction k with
  | zero => rfl
  | succ k ih =>
    show iterGrow m k (growRound m t) = t
    rw [hst]
    exact ih

theorem length_le_numFaces (m : MeshData) (t : List STNode) (hinv : GInv m t) :
    t.length ≤ numFaces m := by
  obtain ⟨-, hN, hB⟩ := hinv
  have h1 : t.length = (treeFaces t).length := (List.length_map t _).symm
  rw [h1, ← List.toFinset_card_of_nodup hN]
  have hsub : (treeFaces t).toFinset ⊆ Finset.range (numFaces m) := by
    intro x hx
    exact Finset.mem_range.mpr (hB x (List.mem_toFinset.mp hx))
  simpa using Finset.card_le_card hsub

theorem growRound_stable_or_lt (m : MeshData) (t : List STNode) :
    growRound m t = t ∨ t.length < (growRound m t).length := by
  obtain ⟨ext, hext, -⟩ := growRound_extend m t
  cases ext with
  | nil => left; rw [hext]; simp
  | cons a l => right; rw [hext]; simp

theorem iterGrow_numFaces_stable (m : MeshData) (t0 : List STNode)
    (hinv : GInv m t0) (hlen : 1 ≤ t0.length) :
    growRound m (iterGrow m (numFaces m) t0) = iterGrow m (numFaces m) t0 := by
  have key : ∀ k, (∃ j, j ≤ k ∧ growRound m (iterGrow m j t0) = iterGrow m j t0) ∨
      k + t0.length ≤ (iterGrow m k t0).length := by
    intro k
    induction k with
    | zero =>
      right
      show 0 + t0.length ≤ t0.length
      omega
    | succ k ih =>
      rcases ih with ⟨j, hj, hst⟩ | hlen_k
      · exact Or.inl ⟨j, Nat.le_succ_of_le hj, hst⟩
      · rcases growRound_stable_or_lt m (iterGrow m k t0) with hst | hlt
        · exact Or.inl ⟨k, Nat.le_succ k, hst⟩
        · right
          have hiter : iterGrow m (k + 1) t0 = growRound m (iterGrow m k t0) :=
            iter_add m k 1 t0
          rw [hiter]
          omega
  rcases key (numFaces m) with ⟨j, hj, hst⟩ | hbig
  · have hsplit : iterGrow m (numFaces m) t0 = iterGrow m j t0 := by
      have : numFaces m = j + (numFaces m - j) := by omega
      rw [this, iter_add, stable_iterGrow m _ hst]
    rw [hsplit]
    exact hst
  · exfalso
    have hle := length_le_numFaces m _ (iterGrow_inv m (numFaces m) t0 hinv)
    omega

theorem foldl_gStep_stable (m : MeshData) (vis : List Nat) :
    ∀ (fs : List Nat) (acc : List STNode), fs.foldl (gStep m vis) acc = acc →
      ∀ f ∈ fs, f ∈ treeFaces acc ∨ findParentEdge m vis f = none := by
  intro fs
  induction fs with
  | nil => intro acc _ f hf; simp at hf
  | cons f0 fs ih =>
    intro acc hfold f hf
    obtain ⟨e1, he1, -⟩ := gStep_extend m vis acc f0
    obtain ⟨e2, he2, -⟩ := foldl_gStep_extend m vis fs (gStep m vis acc f0)
    rw [List.foldl_cons] at hfold
    have heq : (acc ++ e1) ++ e2 = acc := by rw [← he1, ← he2]; exact hfold
    have hl := congrArg List.length heq
    rw [List.length_append, List.length_append] at hl
    have h1 : e1 = [] := List.eq_nil_of_length_eq_zero (by omega)
    have h2 : e2 = [] := List.eq_nil_of_length_eq_zero (by omega)
    subst h1
    subst h2
    have hgacc : gStep m vis acc f0 = acc := by simpa using he1
    rcases List.mem_cons.mp hf with hfeq | hftail
    · subst hfeq
      unfold gStep at hgacc
      split at hgacc
      · left; assumption
      · cases hfind : findParentEdge m vis f with
        | none => right; rfl
        | some ph =>
          rw [hfind] at hgacc
          exfalso
          have := congrArg List.length hgacc
          simp at this
    · have hfold2 : fs.foldl (gStep m vis) acc = acc := by
        have hstep : fs.foldl (gStep m vis) acc = fs.foldl (gStep m vis) (gStep m vis acc f0) := by
          rw [hgacc]
        rw [hstep]
        exact hfold
      exact ih acc hfold2 f hftail

theorem twinFace_lt (m : MeshData) (h g : Nat) (htw : twinFace m h = some g) :
    g < numFaces m := by
  unfold twinFace at htw
  cases ht : twinIdx m h with
  | none => rw [ht] at htw; simp at htw
  | some j =>
    rw [ht] at htw
    simp only [Option.map_some'] at htw
    injection htw with hg
    have hj : j < numHe m := by
      rw [twinIdx] at ht
      simpa using List.mem_of_find?_eq_some ht
    rw [← hg]
    unfold heFace numHe at *
    unfold numFaces
    omega

theorem stable_closed (m : MeshData) (t : List STNode) (hst : growRound m t = t) :
    ∀ p g, p ∈ treeFaces t → adjF m p g → g ∈ treeFaces t := by
  intro p g hp hadj
  obtain ⟨h, hlt, hface, htwin⟩ := hadj
  have hg : g < numFaces m := twinFace_lt m h g htwin
  have := foldl_gStep_stable m (treeFaces t) (List.range (numFaces m)) t hst g
    (List.mem_range.mpr hg)
  rcases this with hmem | hnone
  · exact hmem
  · exfalso
    unfold findParentEdge at hnone
    cases hfind : (List.range (numHe m)).find?
        (fun h => decide (heFace h ∈ treeFaces t ∧ twinFace m h = some g)) with
    | some h0 => rw [hfind] at hnone; simp at hnone
    | none =>
      have := List.find?_eq_none.mp hfind h (List.mem_range.mpr hlt)
      rw [hface] at this
      exact this (decide_eq_true ⟨hp, htwin⟩)

theorem gStep_reach (m : MeshData) (seed : Nat) (vis : List Nat) (acc : List STNode)
    (f0 : Nat) (hvisR : ∀ x ∈ vis, Reach m seed x)
    (haccR : ∀ f ∈ treeFaces acc, Reach m seed f) :
    ∀ f ∈ treeFaces (gStep m vis acc f0), Reach m seed f := by
  intro f hf
  unfold gStep at hf
  split at hf
  · exact haccR f hf
  · cases hfind : findParentEdge m vis f0 with
    | none => rw [hfind] at hf; exact haccR f hf
    | some ph =>
      rw [hfind] at hf
      obtain ⟨p, h⟩ := ph
      obtain ⟨hp, hlt, hface, htwin⟩ := findParentEdge_some m vis f0 p h hfind
      have hf2 : f ∈ treeFaces acc ∨ f = f0 := by simpa using hf
      rcases hf2 with hf3 | hf3
      · exact haccR f hf3
      · subst hf3
        exact Reach.step (hvisR p hp) ⟨h, hlt, hface, htwin⟩

theorem foldl_gStep_reach (m : MeshData) (seed : Nat) (vis : List Nat)
    (hvisR : ∀ x ∈ vis, Reach m seed x) :
    ∀ (fs : List Nat) (acc : List STNode),
      (∀ f ∈ treeFaces acc, Reach m seed f) →
      ∀ f ∈ treeFaces (fs.foldl (gStep m vis) acc), Reach m seed f := by
  intro fs
  induction fs with
  | nil => intro acc haccR f hf; exact haccR f hf
  | cons f0 fs ih =>
    intro acc haccR
    exact ih _ (gStep_reach m seed vis acc f0 hvisR haccR)

theorem growRound_reach (m : MeshData) (seed : Nat) (t : List STNode)
    (htR : ∀ f ∈ treeFaces t, Reach m seed f) :
    ∀ f ∈ treeFaces (growRound m t), Reach m seed f :=
  foldl_gStep_reach m seed (treeFaces t) htR (List.range (numFaces m)) t htR

theorem iterGrow_reach (m : MeshData) (seed : Nat) :
    ∀ (k : Nat) (t : List STNode), (∀ f ∈ treeFaces t, Reach m seed f) →
      ∀ f ∈ treeFaces (iterGrow m k t), Reach m seed f := by
  intro k
  induction k with
  | zero => intro t h; exact h
  | succ k ih => intro t h; exact ih _ (growRound_reach m seed t h)

/-- The initial one-node tree satisfies the structural invariant. -/
theorem rootTree_inv (m : MeshData) (seed : Nat) (hseed : seed < numFaces m) :
    GInv m [⟨seed, none⟩] := by
  refine ⟨⟨?_, trivial⟩, by simp [treeFaces], ?_⟩
  · intro p h hpar
    simp at hpar
  · intro f hf
    have : f = seed := by simpa [treeFaces] using hf
    subst this
    exact hseed

theorem spanTreeE_ok_iff (m : MeshData) (seed : Nat) (t : List STNode) :
    spanTreeE m seed = .ok t ↔
      seed < numFaces m ∧ t = iterGrow m (numFaces m) [⟨seed, none⟩] := by
  unfold spanTreeE
  split
  · rename_i hs
    constructor
    · intro h; injection h with h; exact ⟨hs, h.symm⟩
    · rintro ⟨-, h⟩; rw [h]
  · rename_i hs
    constructor
    · intro h; injection h
    · rintro ⟨h, -⟩; exact absurd h hs

theorem spanTree_inv (m : MeshData) (seed : Nat) (t : List STNode)
    (hok : spanTreeE m seed = .ok t) : GInv m t := by
  obtain ⟨hseed, ht⟩ := (spanTreeE_ok_iff m seed t).mp hok
  rw [ht]
  exact iterGrow_inv m (numFaces m) _ (rootTree_inv m seed hseed)

theorem spanTree_rooted (m : MeshData) (seed : Nat) (t : List STNode)
    (hok : spanTreeE m seed = .ok t) : RootedAt seed t := by
  obtain ⟨hseed, ht⟩ := (spanTreeE_ok_iff m seed t).mp hok
  rw [ht]
  exact iterGrow_rooted m seed (numFaces m) _ ⟨[], rfl, by simp⟩

theorem spanTree_stable (m : MeshData) (seed : Nat) (t : List STNode)
    (hok : spanTreeE m seed = .ok t) : growRound m t = t := by
  obtain ⟨hseed, ht⟩ := (spanTreeE_ok_iff m seed t).mp hok
  rw [ht]
  exact iterGrow_numFaces_stable m _ (rootTree_inv m seed hseed) (by simp)

/-- Every face of the spanning tree is reachable from the seed, and vice
versa: the tree's faces are exactly the seed's dual-graph component. -/
theorem spanTree_component (m : MeshData) (seed : Nat) (t : List STNode)
    (hok : spanTreeE m seed = .ok t) :
    ∀ g, g ∈ treeFaces t ↔ Reach m seed g := by
  obtain ⟨hseed, ht⟩ := (spanTreeE_ok_iff m seed t).mp hok
  intro g
  constructor
  · intro hg
    rw [ht] at hg
    refine iterGrow_reach m seed (numFaces m) [⟨seed, none⟩] ?_ g hg
    intro f hf
    have : f = seed := by simpa [treeFaces] using hf
    subst this
    exact Reach.base
  · intro hreach
    have hstable := spanTree_stable m seed t hok
    induction hreach with
    | base =>
      rw [ht]
      exact mem_treeFaces_iterGrow m (numFaces m) _ seed (by simp [treeFaces])
    | step hr hadj ih =>
      exact stable_closed m t hstable _ _ ih hadj

/-- Tree size equals the number of faces in the seed's component. -/
theorem spanTree_card (m : MeshData) (seed : Nat) (t : List STNode)
    (hok : spanTreeE m seed = .ok t) :
    t.length = Set.ncard {g | Reach m seed g} := by
  have hmemb := spanTree_component m seed t hok
  have hN := (spanTree_inv m seed t hok).2.1
  have hset : {g | Reach m seed g} = ((treeFaces t).toFinset : Set Nat) := by
    ext g
    simp only [Set.mem_setOf_eq, Finset.coe_sort_coe, Finset.mem_coe, List.mem_toFinset]
    exact (hmemb g).symm
  rw [hset, Set.ncard_coe_Finset, List.toFinset_card_of_nodup hN]
  exact (List.length_map t _).symm

theorem parentsOK_extract (m : MeshData) :
    ∀ (pre : List STNode) (seen : List Nat) (nd : STNode) (post : List STNode),
      ParentsOK m seen (pre ++ nd :: post) → ∀ p h, nd.parent = some (p, h) →
        (p ∈ seen ++ treeFaces pre) ∧ h < numHe m ∧ heFace h = p ∧
          twinFace m h = some nd.face := by
  intro pre
  induction pre with
  | nil =>
    intro seen nd post hP p h hpar
    obtain ⟨hnode, -⟩ := hP
    obtain ⟨h1, h2, h3, h4⟩ := hnode p h hpar
    exact ⟨by simpa using h1, h2, h3, h4⟩
  | cons a pre ih =>
    intro seen nd post hP p h hpar
    obtain ⟨-, hrest⟩ := hP
    obtain ⟨h1, h2, h3, h4⟩ := ih (seen ++ [a.face]) nd post hrest p h hpar
    refine ⟨?_, h2, h3, h4⟩
    rw [List.append_assoc] at h1
    simpa [treeFaces] using h1

theorem parentRel_indexOf_lt (m : MeshData) (t : List STNode) (hinv : GInv m t)
    (a b : Nat) (hrel : parentRel t a b) :
    (treeFaces t).indexOf a < (treeFaces t).indexOf b := by
  obtain ⟨hP, hN, -⟩ := hinv
  obtain ⟨nd, hnd, hface, h, hpar⟩ := hrel
  obtain ⟨pre, post, hsplit⟩ := List.append_of_mem hnd
  rw [hsplit] at hP
  obtain ⟨hpa, -, -, -⟩ := parentsOK_extract m pre [] nd post hP a h hpar
  have hpre : a ∈ treeFaces pre := by simpa using hpa
  have htf : treeFaces t = treeFaces pre ++ nd.face :: treeFaces post := by
    rw [hsplit]; simp [treeFaces]
  rw [htf] at hN ⊢
  have hbnotin : nd.face ∉ treeFaces pre := by
    rw [List.nodup_append] at hN
    intro hmem
    exact hN.2.2 hmem (by simp)
  rw [hface] at hbnotin
  have hidxb : (treeFaces pre ++ nd.face :: treeFaces post).indexOf b =
      (treeFaces pre).length := by
    rw [hface] at *
    rw [List.indexOf_append_of_not_mem hbnotin]
    simp [List.indexOf_cons_self]
  have hidxa : (treeFaces pre ++ nd.face :: treeFaces post).indexOf a =
      (treeFaces pre).indexOf a := List.indexOf_append_of_mem hpre
  rw [hidxa, hidxb]
  exact List.indexOf_lt_length.mpr hpre

theorem transGen_parentRel_lt (m : MeshData) (t : List STNode) (hinv : GInv m t)
    (a b : Nat) (htg : Relation.TransGen (parentRel t) a b) :
    (treeFaces t).indexOf a < (treeFaces t).indexOf b := by
  induction htg with
  | single h => exact parentRel_indexOf_lt m t hinv _ _ h
  | tail h1 h2 ih => exact lt_trans ih (parentRel_indexOf_lt m t hinv _ _ h2)

/-- Claim C4: the produced spanning tree is well-formed — unique seed root,
distinct faces, parents realized by actual shared mesh edges and placed
before their children, no parent-relation cycles, and the tree's faces are
exactly the seed's connected component (with matching cardinality). -/
theorem spanTree_wellFormed (md : MeshData) (m : HalfEdgeMesh) (seed : Nat)
    (t : List STNode) (hacc : buildMesh md = .ok m)
    (hok : spanTreeE m seed = .ok t) :
    t.getD 0 ⟨0, none⟩ = ⟨seed, none⟩ ∧
      (∀ j, 0 < j → j < t.length → (t.getD j ⟨0, none⟩).parent ≠ none) ∧
      (treeFaces t).Nodup ∧
      (∀ nd ∈ t, ∀ p h, nd.parent = some (p, h) →
        p ∈ treeFaces t ∧ h < numHe m ∧ heFace h = p ∧ twinFace m h = some nd.face) ∧
      (∀ f, ¬ Relation.TransGen (parentRel t) f f) ∧
      (∀ g, g ∈ treeFaces t ↔ Reach m seed g) ∧
      t.length = Set.ncard {g | Reach m seed g} := by
  have hinv := spanTree_inv m seed t hok
  obtain ⟨rest, hrest, hrestP⟩ := spanTree_rooted m seed t hok
  refine ⟨by rw [hrest]; rfl, ?_, hinv.2.1, ?_, ?_, spanTree_component m seed t hok,
    spanTree_card m seed t hok⟩
  · intro j hj hjlen
    rw [hrest]
    obtain ⟨j', rfl⟩ : ∃ j', j = j' + 1 := ⟨j - 1, by omega⟩
    rw [List.getD_cons_succ]
    have hjlen' : j' < rest.length := by
      rw [hrest] at hjlen; simp at hjlen; omega
    rw [List.getD_eq_getElem _ _ hjlen']
    exact hrestP _ (List.getElem_mem _)
  · intro nd hnd p h hpar
    obtain ⟨pre, post, hsplit⟩ := List.append_of_mem hnd
    have hP := hinv.1
    rw [hsplit] at hP
    obtain ⟨hpa, h2, h3, h4⟩ := parentsOK_extract m pre [] nd post hP p h hpar
    refine ⟨?_, h2, h3, h4⟩
    rw [hsplit]
    simp only [treeFaces_append, treeFaces_cons]
    exact List.mem_append_left _ (by simpa using hpa)
  · intro f htg
    exact absurd (transGen_parentRel_lt m t hinv f f htg) (lt_irrefl _)

/-- Witness for C4 at the regular tetrahedron, seeded at face 0. -/
theorem spanTree_wellFormed_witness :
    spanTreeE tetMesh 0 = .ok tetTree ∧
      (tetTree.getD 0 ⟨0, none⟩ = ⟨0, none⟩ ∧
        (∀ j, 0 < j → j < tetTree.length → (tetTree.getD j ⟨0, none⟩).parent ≠ none) ∧
        (treeFaces tetTree).Nodup ∧
        (∀ nd ∈ tetTree, ∀ p h, nd.parent = some (p, h) →
          p ∈ treeFaces tetTree ∧ h < numHe tetMesh ∧ heFace h = p ∧
            twinFace tetMesh h = some nd.face) ∧
        (∀ f, ¬ Relation.TransGen (parentRel tetTree) f f) ∧
        (∀ g, g ∈ treeFaces tetTree ↔ Reach tetMesh 0 g) ∧
        tetTree.length = Set.ncard {g | Reach tetMesh 0 g}) :=
  ⟨rfl, spanTree_wellFormed tetMesh tetMesh 0 tetTree rfl rfl⟩

theorem d3_nonneg (m : MeshData) (a b : Nat) : 0 ≤ d3 m a b := by
  unfold d3; positivity

theorem d3_comm (m : MeshData) (a b : Nat) : d3 m a b = d3 m b a := by
  unfold d3; ring

theorem d3_self (m : MeshData) (a : Nat) : d3 m a a = 0 := by
  unfold d3; ring

theorem heronQ_perm1 (x y z : ℚ) : heronQ x y z = heronQ y x z := by unfold heronQ; ring

theorem heronQ_perm2 (x y z : ℚ) : heronQ x y z = heronQ x z y := by unfold heronQ; ring

theorem heronQ_perm3 (x y z : ℚ) : heronQ x y z = heronQ z y x := by unfold heronQ; ring

/-- A strictly positive Heron functional forces all three squared lengths
positive. -/
theorem heronQ_pos_all (x y z : ℚ) (hx : 0 ≤ x) (hy : 0 ≤ y) (hz : 0 ≤ z)
    (h : 0 < heronQ x y z) : 0 < x ∧ 0 < y ∧ 0 < z := by
  unfold heronQ at h
  refine ⟨?_, ?_, ?_⟩
  · nlinarith [sq_nonneg (y + z - x), sq_nonneg (y - z)]
  · nlinarith [sq_nonneg (x + z - y), sq_nonneg (x - z)]
  · nlinarith [sq_nonneg (x + y - z), sq_nonneg (x - y)]

theorem sq2_comm (P Q : V2) : sq2 P Q = sq2 Q P := by unfold sq2; ring

theorem discQ_eq (e dU dV : ℚ) (he : e ≠ 0) :
    discQ e dU dV = heronQ e dU dV / (4 * e ^ 2) := by
  unfold discQ alphaQ heronQ
  field_simp
  ring

theorem discQ_nonneg (e dU dV : ℚ) (he : 0 < e) (h : 0 < heronQ e dU dV) :
    0 ≤ discQ e dU dV := by
  rw [discQ_eq e dU dV (ne_of_gt he)]
  positivity

/-- The apex placement reproduces the requested squared distances to both
endpoints of the shared edge. -/
theorem placeApex_sq (P Q : V2) (e dU dV : ℚ) (s : ℝ) (hs : s = 1 ∨ s = -1)
    (hh : 0 < heronQ e dU dV) (he0 : 0 ≤ e) (hU0 : 0 ≤ dU) (hV0 : 0 ≤ dV)
    (hE : sq2 P Q = (e : ℝ)) :
    sq2 P (placeApex P Q e dU dV s) = (dU : ℝ) ∧
      sq2 Q (placeApex P Q e dU dV s) = (dV : ℝ) := by
  obtain ⟨hepos, hUpos, hVpos⟩ := heronQ_pos_all e dU dV he0 hU0 hV0 hh
  have hdisc0 : (0 : ℝ) ≤ ((discQ e dU dV : ℚ) : ℝ) := by
    exact_mod_cast discQ_nonneg e dU dV hepos hh
  have hb2 : (s * Real.sqrt ((discQ e dU dV : ℚ))) ^ 2 = ((discQ e dU dV : ℚ) : ℝ) := by
    rcases hs with h | h <;> subst h <;>
      rw [mul_pow, Real.sq_sqrt hdisc0] <;> norm_num
  constructor
  · have h1 : sq2 P (placeApex P Q e dU dV s) =
        (((alphaQ e dU dV : ℚ) : ℝ) ^ 2 + (s * Real.sqrt ((discQ e dU dV : ℚ))) ^ 2) *
          sq2 P Q := by
      unfold placeApex sq2
      ring
    rw [hE, hb2] at h1
    rw [h1]
    have hq : (alphaQ e dU dV ^ 2 + discQ e dU dV) * e = dU := by
      simp only [discQ, alphaQ]
      field_simp
      ring
    exact_mod_cast congrArg (fun q : ℚ => (q : ℝ)) hq
  · have h2 : sq2 Q (placeApex P Q e dU dV s) =
        ((((alphaQ e dU dV : ℚ) : ℝ) - 1) ^ 2 +
          (s * Real.sqrt ((discQ e dU dV : ℚ))) ^ 2) * sq2 P Q := by
      unfold placeApex sq2
      ring
    rw [hE, hb2] at h2
    rw [h2]
    have hq : ((alphaQ e dU dV - 1) ^ 2 + discQ e dU dV) * e = dV := by
      simp only [discQ, alphaQ]
      field_simp
      ring
    have hcast : ((((alphaQ e dU dV - 1) ^ 2 + discQ e dU dV) * e : ℚ) : ℝ) = ((dV : ℚ) : ℝ) :=
      congrArg (fun q : ℚ => (q : ℝ)) hq
    push_cast at hcast
    linarith [hcast]

theorem foldl_netStepE_error (m : MeshData) :
    ∀ (t : List STNode) (err : UnfoldError),
      t.foldl (netStepE m) (.error err) = .error err := by
  intro t
  induction t with
  | nil => intro err; rfl
  | cons nd t ih => intro err; exact ih err

theorem foldl_netStepE_ok (m : MeshData) :
    ∀ (t : List STNode) (acc : List NetEntry),
      t.all (fun nd => decide (0 < heron3 m nd.face)) = true →
      t.foldl (netStepE m) (.ok acc) = .ok (t.foldl (netStepP m) acc) := by
  intro t
  induction t with
  | nil => intro acc _; rfl
  | cons nd t ih =>
    intro acc hall
    rw [List.all_cons] at hall
    obtain ⟨hnd, ht⟩ := Bool.and_eq_true_iff.mp hall
    have hpos : 0 < heron3 m nd.face := of_decide_eq_true hnd
    show t.foldl (netStepE m) (netStepE m (.ok acc) nd) = _
    rw [show netStepE m (.ok acc) nd = .ok (netStepP m acc nd) by
      simp only [netStepE]; rw [if_pos hpos]]
    exact ih _ ht

theorem netBuildE_ok_of (m : MeshData) (t : List STNode)
    (h : netResultOk m t = true) : netBuildE m t = .ok (netEntries m t) :=
  foldl_netStepE_ok m t [] h

theorem foldl_netStepE_err (m : MeshData) :
    ∀ (t : List STNode) (acc : List NetEntry),
      t.all (fun nd => decide (0 < heron3 m nd.face)) = false →
      t.foldl (netStepE m) (.ok acc) = .error .DegenerateFace := by
  intro t
  induction t with
  | nil => intro acc h; simp at h
  | cons nd t ih =>
    intro acc hall
    show t.foldl (netStepE m) (netStepE m (.ok acc) nd) = _
    by_cases hpos : 0 < heron3 m nd.face
    · rw [show netStepE m (.ok acc) nd = .ok (netStepP m acc nd) by
        simp only [netStepE]; rw [if_pos hpos]]
      refine ih _ ?_
      rw [List.all_cons] at hall
      rcases Bool.and_eq_false_iff.mp hall with h1 | h1
      · exact absurd hpos (of_decide_eq_false h1)
      · exact h1
    · rw [show netStepE m (.ok acc) nd = .error .DegenerateFace by
        simp only [netStepE]; rw [if_neg hpos]]
      exact foldl_netStepE_error m t _

theorem netBuildE_err_of (m : MeshData) (t : List STNode)
    (h : netResultOk m t = false) : netBuildE m t = .error .DegenerateFace :=
  foldl_netStepE_err m t [] h

/-- Lagrange identity: the face degeneracy functional is four times the
squared cross-product norm, hence zero exactly on collinear faces. -/
theorem heron3_eq_cross (m : MeshData) (f : Nat) :
    heron3 m f = 4 * normSq3 (faceCross m f) := by
  unfold heron3 heronQ d3 faceCross cross3 sub3 normSq3
  ring

theorem collinear_heron3 (m : MeshData) (f : Nat) (hcol : collinearFace m f) :
    ¬ 0 < heron3 m f := by
  rw [heron3_eq_cross, hcol]
  unfold normSq3
  norm_num

/-- Claim C6 (amended): when construction succeeds, the seed is valid and the
collinear face belongs to the seed's component (its spanning tree), the unfold
fails with `DegenerateFace` — and hence emits no coordinates at all. -/
theorem degenerate_face_error (md : MeshData) (m : HalfEdgeMesh) (seed : Nat)
    (t : List STNode) (f : Nat) (hacc : buildMesh md = .ok m)
    (hok : spanTreeE m seed = .ok t) (hf : f ∈ treeFaces t)
    (hcol : collinearFace m f) :
    unfoldPipeline md seed = .error .DegenerateFace := by
  have hbad : netResultOk m t = false := by
    obtain ⟨nd, hnd, hface⟩ : ∃ nd ∈ t, nd.face = f := by
      simpa [treeFaces, List.mem_map] using hf
    rw [netResultOk, List.all_eq_false]
    refine ⟨nd, hnd, ?_⟩
    simp only [decide_eq_true_eq, hface]
    exact collinear_heron3 m f hcol
  have hnet := netBuildE_err_of m t hbad
  unfold unfoldPipeline
  simp [hacc, hok, hnet]

/-- Counterexample to C6 as stated: an input containing a collinear face whose
unfold (seeded at face 0, as the program always does) does not fail, because
the collinear face is outside the seed's component. -/
theorem degenerate_face_counterexample :
    collinearFace disconnectedMesh 1 ∧
      unfoldPipeline disconnectedMesh 0 ≠ .error .DegenerateFace := by
  constructor
  · show faceCross disconnectedMesh 1 = ⟨0, 0, 0⟩
    norm_num [faceCross, cross3, sub3, vpos, faceTriple, disconnectedMesh]
  · have h1 : buildMesh disconnectedMesh = .ok disconnectedMesh := by decide
    have h2 : spanTreeE disconnectedMesh 0 =
        .ok (iterGrow disconnectedMesh (numFaces disconnectedMesh) [⟨0, none⟩]) := rfl
    have htree : iterGrow disconnectedMesh (numFaces disconnectedMesh) [⟨0, none⟩] =
        [⟨0, none⟩] := by decide
    have h3 : netResultOk disconnectedMesh
        (iterGrow disconnectedMesh (numFaces disconnectedMesh) [⟨0, none⟩]) = true := by
      rw [htree]
      norm_num [netResultOk, List.all_cons, heron3, heronQ, d3, vpos, faceTriple,
        disconnectedMesh]
    have hnet := netBuildE_ok_of disconnectedMesh _ h3
    unfold unfoldPipeline
    simp [h1, h2, hnet]

/-- Witness for the amended C6 at a concrete collinear input. -/
theorem degenerate_face_error_witness :
    unfoldPipeline collinearMesh 0 = .error .DegenerateFace :=
  degenerate_face_error collinearMesh collinearMesh 0
    (iterGrow collinearMesh (numFaces collinearMesh) [⟨0, none⟩]) 0 (by decide) rfl
    (by decide)
    (by show faceCross collinearMesh 0 = ⟨0, 0, 0⟩
        norm_num [faceCross, cross3, sub3, vpos, faceTriple, collinearMesh])

/-- Claim C5: the pipeline is deterministic — two runs on identical inputs
produce identical spanning trees and identical output sequences. -/
theorem unfold_deterministic (md : MeshData) (seed : Nat) (m : HalfEdgeMesh)
    (hacc : buildMesh md = .ok m)
    (t1 t2 : Except UnfoldError (List STNode)) (o1 o2 : Except UnfoldError (List V2))
    (h1 : t1 = spanTreeE m seed) (h2 : t2 = spanTreeE m seed)
    (h3 : o1 = unfoldPipeline md seed) (h4 : o2 = unfoldPipeline md seed) :
    t1 = t2 ∧ o1 = o2 :=
  ⟨h1.trans h2.symm, h3.trans h4.symm⟩

/-- Witness for C5 at the tetrahedron. -/
theorem unfold_deterministic_witness :
    spanTreeE tetMesh 0 = spanTreeE tetMesh 0 ∧
      unfoldPipeline tetMesh 0 = unfoldPipeline tetMesh 0 :=
  unfold_deterministic tetMesh 0 tetMesh rfl _ _ _ _ rfl rfl rfl rfl

theorem sideSign_unit (Pu Pv R : V2) : sideSign Pu Pv R = 1 ∨ sideSign Pu Pv R = -1 := by
  unfold sideSign
  split
  · right; rfl
  · left; rfl

/-- A positive face check forces positive squared lengths and distinct vertex
ids on all three edges of the face. -/
theorem heron3_pos_distinct (m : MeshData) (c : Nat) (hc : 0 < heron3 m c) :
    0 < d3 m (faceTriple m c).1 (faceTriple m c).2.1 ∧
      0 < d3 m (faceTriple m c).2.1 (faceTriple m c).2.2 ∧
      0 < d3 m (faceTriple m c).2.2 (faceTriple m c).1 ∧
      (faceTriple m c).1 ≠ (faceTriple m c).2.1 ∧
      (faceTriple m c).2.1 ≠ (faceTriple m c).2.2 ∧
      (faceTriple m c).2.2 ≠ (faceTriple m c).1 := by
  obtain ⟨h1, h2, h3⟩ := heronQ_pos_all _ _ _ (d3_nonneg m _ _) (d3_nonneg m _ _)
    (d3_nonneg m _ _) hc
  refine ⟨h1, h2, h3, ?_, ?_, ?_⟩
  · intro he; rw [he, d3_self] at h1; exact lt_irrefl 0 h1
  · intro he; rw [he, d3_self] at h2; exact lt_irrefl 0 h2
  · intro he; rw [he, d3_self] at h3; exact lt_irrefl 0 h3

/-- The root placement is geometrically correct. -/
theorem rootEntry_good (m : MeshData) (f : Nat) (hh : 0 < heron3 m f) :
    entryGood m (rootEntry m f) ∧ (rootEntry m f).face = f := by
  have hperm : heronQ (d3 m (faceTriple m f).1 (faceTriple m f).2.1)
      (d3 m (faceTriple m f).1 (faceTriple m f).2.2)
      (d3 m (faceTriple m f).2.1 (faceTriple m f).2.2) = heron3 m f := by
    unfold heron3 heronQ d3
    ring
  have hh2 : 0 < heronQ (d3 m (faceTriple m f).1 (faceTriple m f).2.1)
      (d3 m (faceTriple m f).1 (faceTriple m f).2.2)
      (d3 m (faceTriple m f).2.1 (faceTriple m f).2.2) := by rw [hperm]; exact hh
  have hE : sq2 (⟨0, 0⟩ : V2)
      ⟨Real.sqrt ((d3 m (faceTriple m f).1 (faceTriple m f).2.1 : ℚ)), 0⟩ =
      ((d3 m (faceTriple m f).1 (faceTriple m f).2.1 : ℚ) : ℝ) := by
    unfold sq2
    simp
    rw [Real.sq_sqrt (by exact_mod_cast d3_nonneg m _ _)]
  obtain ⟨hU, hV⟩ := placeApex_sq _ _ _ _ _ 1 (Or.inl rfl) hh2
    (d3_nonneg m _ _) (d3_nonneg m _ _) (d3_nonneg m _ _) hE
  refine ⟨⟨hh, hE, ?_, ?_⟩, rfl⟩
  · exact hV
  · exact hU

/-- Twin destructuring: a twin face comes from an actual twin half-edge with
equal unordered vertex pair. -/
theorem twinFace_elim (m : MeshData) (h c : Nat) (htw : twinFace m h = some c) :
    ∃ j, j < numHe m ∧ heFace j = c ∧ pairKey m j = pairKey m h := by
  unfold twinFace at htw
  cases ht : twinIdx m h with
  | none => rw [ht] at htw; simp at htw
  | some j =>
    rw [ht] at htw
    simp only [Option.map_some'] at htw
    injection htw with hc
    have hfind : (List.range (numHe m)).find?
        (fun i => decide (i ≠ h ∧ pairKey m i = pairKey m h)) = some j := by
      rw [twinIdx] at ht; exact ht
    have hj : j < numHe m := by simpa using List.mem_of_find?_eq_some hfind
    have hprop : j ≠ h ∧ pairKey m j = pairKey m h := by
      simpa using List.find?_some hfind
    exact ⟨j, hj, hc, hprop.2⟩

/-- Equal unordered pairs are equal or swapped. -/
theorem pair_eq_of_key (a b c d : Nat) (h1 : min a b = min c d) (h2 : max a b = max c d) :
    (a = c ∧ b = d) ∨ (a = d ∧ b = c) := by omega

/-- The endpoints of half-edge `h` are a consecutive slot pair of its face's
triple. -/
theorem heEnds_slots (m : MeshData) (h : Nat) :
    (heOrigin m h = (faceTriple m (heFace h)).1 ∧
      heDest m h = (faceTriple m (heFace h)).2.1) ∨
    (heOrigin m h = (faceTriple m (heFace h)).2.1 ∧
      heDest m h = (faceTriple m (heFace h)).2.2) ∨
    (heOrigin m h = (faceTriple m (heFace h)).2.2 ∧
      heDest m h = (faceTriple m (heFace h)).1) := by
  have h3 : h % 3 = 0 ∨ h % 3 = 1 ∨ h % 3 = 2 := by omega
  rcases h3 with h3 | h3 | h3
  · left; unfold heOrigin heDest; rw [h3]; simp
  · right; left; unfold heOrigin heDest; rw [h3]; simp
  · right; right; unfold heOrigin heDest; rw [h3]; simp

/-- The parent's placed shared edge has the correct squared length, and its
endpoints are distinct vertex ids. -/
theorem parent_edge_placed (m : MeshData) (pe : NetEntry) (h : Nat)
    (hpe : entryGood m pe) (hface : heFace h = pe.face) :
    sq2 (lookupPos m pe (heOrigin m h)) (lookupPos m pe (heDest m h)) =
      ((d3 m (heOrigin m h) (heDest m h) : ℚ) : ℝ) ∧ heOrigin m h ≠ heDest m h := by
  obtain ⟨hch, hd12, hd23, hd13⟩ := hpe
  obtain ⟨-, -, -, hne12, hne23, hne31⟩ := heron3_pos_distinct m pe.face hch
  have hslots := heEnds_slots m h
  rw [hface] at hslots
  rcases hslots with ⟨ho, hd⟩ | ⟨ho, hd⟩ | ⟨ho, hd⟩ <;> rw [ho, hd]
  · constructor
    · rw [show lookupPos m pe (faceTriple m pe.face).1 = pe.p1 by
        unfold lookupPos; rw [if_pos rfl]]
      rw [show lookupPos m pe (faceTriple m pe.face).2.1 = pe.p2 by
        unfold lookupPos; rw [if_neg hne12, if_pos rfl]]
      exact hd12
    · exact hne12
  · constructor
    · rw [show lookupPos m pe (faceTriple m pe.face).2.1 = pe.p2 by
        unfold lookupPos; rw [if_neg hne12, if_pos rfl]]
      rw [show lookupPos m pe (faceTriple m pe.face).2.2 = pe.p3 by
        unfold lookupPos; rw [if_neg (fun he => hne31 he.symm), if_neg hne23, if_pos rfl]]
      exact hd23
    · exact hne23
  · constructor
    · rw [show lookupPos m pe (faceTriple m pe.face).2.2 = pe.p3 by
        unfold lookupPos; rw [if_neg (fun he => hne31 he.symm), if_neg hne23, if_pos rfl]]
      rw [show lookupPos m pe (faceTriple m pe.face).1 = pe.p1 by
        unfold lookupPos; rw [if_pos rfl]]
      rw [sq2_comm, d3_comm]
      exact hd13
    · exact hne31

/-- The child placement is geometrically correct, and the shared-edge vertices
are placed at exactly the parent's positions for those vertex ids. -/
theorem childEntry_good (m : MeshData) (pe : NetEntry) (c h : Nat)
    (hpe : entryGood m pe) (hface : heFace h = pe.face)
    (htw : twinFace m h = some c) (hcheck : 0 < heron3 m c) :
    entryGood m (childEntry m pe c h) ∧ (childEntry m pe c h).face = c ∧
      lookupPos m (childEntry m pe c h) (heOrigin m h) =
        lookupPos m pe (heOrigin m h) ∧
      lookupPos m (childEntry m pe c h) (heDest m h) =
        lookupPos m pe (heDest m h) := by
  obtain ⟨hE, huv⟩ := parent_edge_placed m pe h hpe hface
  obtain ⟨j, hj, hjface, hjkey⟩ := twinFace_elim m h c htw
  obtain ⟨hd12, hd23, hd31, hne12, hne23, hne31⟩ := heron3_pos_distinct m c hcheck
  have hkey2 := hjkey
  unfold pairKey at hkey2
  injection hkey2 with hmin hmax
  have hpair := pair_eq_of_key _ _ _ _ hmin hmax
  have hslots := heEnds_slots m j
  rw [hjface] at hslots
  rcases hslots with ⟨hjo, hjd⟩ | ⟨hjo, hjd⟩ | ⟨hjo, hjd⟩ <;>
    rcases hpair with ⟨hou, hdv⟩ | ⟨hov, hdu⟩
  · -- case A1: shared edge occupies slots (1, 2); free slot 3
    have hu : heOrigin m h = (faceTriple m c).1 := hou.symm.trans hjo
    have hv : heDest m h = (faceTriple m c).2.1 := hdv.symm.trans hjd
    rw [hu, hv] at hE
    have hw : freeVertex (faceTriple m c) (faceTriple m c).1 (faceTriple m c).2.1 = (faceTriple m c).2.2 := by
      unfold freeVertex
      rw [if_neg (by simp), if_neg (by simp)]
    have hperm : heronQ (d3 m (faceTriple m c).1 (faceTriple m c).2.1) (d3 m (faceTriple m c).1 (faceTriple m c).2.2) (d3 m (faceTriple m c).2.1 (faceTriple m c).2.2) = heron3 m c := by
      unfold heron3 heronQ d3
      ring
    have hh2 : 0 < heronQ (d3 m (faceTriple m c).1 (faceTriple m c).2.1) (d3 m (faceTriple m c).1 (faceTriple m c).2.2) (d3 m (faceTriple m c).2.1 (faceTriple m c).2.2) := by
      rw [hperm]
      exact hcheck
    obtain ⟨hdU, hdV⟩ := placeApex_sq (lookupPos m pe (faceTriple m c).1) (lookupPos m pe (faceTriple m c).2.1)
      (d3 m (faceTriple m c).1 (faceTriple m c).2.1) (d3 m (faceTriple m c).1 (faceTriple m c).2.2) (d3 m (faceTriple m c).2.1 (faceTriple m c).2.2)
      (sideSign (lookupPos m pe (faceTriple m c).1) (lookupPos m pe (faceTriple m c).2.1)
        (lookupPos m pe (freeVertex (faceTriple m pe.face) (faceTriple m c).1 (faceTriple m c).2.1)))
      (sideSign_unit _ _ _) hh2 (d3_nonneg m _ _) (d3_nonneg m _ _) (d3_nonneg m _ _) hE
    have hWU : sq2 (lookupPos m pe (faceTriple m c).1) (childApex m pe c h) = ((d3 m (faceTriple m c).1 (faceTriple m c).2.2 : ℚ) : ℝ) := by
      unfold childApex
      rw [hu, hv, hw]
      exact hdU
    have hWV : sq2 (lookupPos m pe (faceTriple m c).2.1) (childApex m pe c h) = ((d3 m (faceTriple m c).2.1 (faceTriple m c).2.2 : ℚ) : ℝ) := by
      unfold childApex
      rw [hu, hv, hw]
      exact hdV
    have hs1 : slotPos m pe c h (faceTriple m c).1 = lookupPos m pe (faceTriple m c).1 := by
      unfold slotPos
      rw [hu, hv]
      rw [if_pos rfl]
    have hs2 : slotPos m pe c h (faceTriple m c).2.1 = lookupPos m pe (faceTriple m c).2.1 := by
      unfold slotPos
      rw [hu, hv]
      rw [if_neg (fun hq => hne12 hq.symm), if_pos rfl]
    have hs3 : slotPos m pe c h (faceTriple m c).2.2 = childApex m pe c h := by
      unfold slotPos
      rw [hu, hv]
      rw [if_neg hne31, if_neg (fun hq => hne23 hq.symm)]
    refine ⟨⟨hcheck, ?_, ?_, ?_⟩, rfl, ?_, ?_⟩
    · show sq2 (slotPos m pe c h (faceTriple m c).1) (slotPos m pe c h (faceTriple m c).2.1) =
        ((d3 m (faceTriple m c).1 (faceTriple m c).2.1 : ℚ) : ℝ)
      rw [hs1, hs2]
      exact hE
    · show sq2 (slotPos m pe c h (faceTriple m c).2.1) (slotPos m pe c h (faceTriple m c).2.2) =
        ((d3 m (faceTriple m c).2.1 (faceTriple m c).2.2 : ℚ) : ℝ)
      rw [hs2, hs3]
      exact hWV
    · show sq2 (slotPos m pe c h (faceTriple m c).1) (slotPos m pe c h (faceTriple m c).2.2) =
        ((d3 m (faceTriple m c).1 (faceTriple m c).2.2 : ℚ) : ℝ)
      rw [hs1, hs3]
      exact hWU
    · rw [hu]
      have hlk : lookupPos m (childEntry m pe c h) (faceTriple m c).1 = slotPos m pe c h (faceTriple m c).1 := by
        simp only [lookupPos, childEntry]
        simp
      rw [hlk, hs1]
    · rw [hv]
      have hlk : lookupPos m (childEntry m pe c h) (faceTriple m c).2.1 = slotPos m pe c h (faceTriple m c).2.1 := by
        simp only [lookupPos, childEntry]
        simp [hne12]
      rw [hlk, hs2]
  · -- case A2: shared edge occupies slots (2, 1); free slot 3
    have hv : heDest m h = (faceTriple m c).1 := hov.symm.trans hjo
    have hu : heOrigin m h = (faceTriple m c).2.1 := hdu.symm.trans hjd
    rw [hu, hv] at hE
    have hw : freeVertex (faceTriple m c) (faceTriple m c).2.1 (faceTriple m c).1 = (faceTriple m c).2.2 := by
      unfold freeVertex
      rw [if_neg (by simp), if_neg (by simp)]
    have hperm : heronQ (d3 m (faceTriple m c).2.1 (faceTriple m c).1) (d3 m (faceTriple m c).2.1 (faceTriple m c).2.2) (d3 m (faceTriple m c).1 (faceTriple m c).2.2) = heron3 m c := by
      unfold heron3 heronQ d3
      ring
    have hh2 : 0 < heronQ (d3 m (faceTriple m c).2.1 (faceTriple m c).1) (d3 m (faceTriple m c).2.1 (faceTriple m c).2.2) (d3 m (faceTriple m c).1 (faceTriple m c).2.2) := by
      rw [hperm]
      exact hcheck
    obtain ⟨hdU, hdV⟩ := placeApex_sq (lookupPos m pe (faceTriple m c).2.1) (lookupPos m pe (faceTriple m c).1)
      (d3 m (faceTriple m c).2.1 (faceTriple m c).1) (d3 m (faceTriple m c).2.1 (faceTriple m c).2.2) (d3 m (faceTriple m c).1 (faceTriple m c).2.2)
      (sideSign (lookupPos m pe (faceTriple m c).2.1) (lookupPos m pe (faceTriple m c).1)
        (lookupPos m pe (freeVertex (faceTriple m pe.face) (faceTriple m c).2.1 (faceTriple m c).1)))
      (sideSign_unit _ _ _) hh2 (d3_nonneg m _ _) (d3_nonneg m _ _) (d3_nonneg m _ _) hE
    have hWU : sq2 (lookupPos m pe (faceTriple m c).2.1) (childApex m pe c h) = ((d3 m (faceTriple m c).2.1 (faceTriple m c).2.2 : ℚ) : ℝ) := by
      unfold childApex
      rw [hu, hv, hw]
      exact hdU
    have hWV : sq2 (lookupPos m pe (faceTriple m c).1) (childApex m pe c h) = ((d3 m (faceTriple m c).1 (faceTriple m c).2.2 : ℚ) : ℝ) := by
      unfold childApex
      rw [hu, hv, hw]
      exact hdV
    have hs1 : slotPos m pe c h (faceTriple m c).1 = lookupPos m pe (faceTriple m c).1 := by
      unfold slotPos
      rw [hu, hv]
      rw [if_neg hne12, if_pos rfl]
    have hs2 : slotPos m pe c h (faceTriple m c).2.1 = lookupPos m pe (faceTriple m c).2.1 := by
      unfold slotPos
      rw [hu, hv]
      rw [if_pos rfl]
    have hs3 : slotPos m pe c h (faceTriple m c).2.2 = childApex m pe c h := by
      unfold slotPos
      rw [hu, hv]
      rw [if_neg (fun hq => hne23 hq.symm), if_neg hne31]
    refine ⟨⟨hcheck, ?_, ?_, ?_⟩, rfl, ?_, ?_⟩
    · show sq2 (slotPos m pe c h (faceTriple m c).1) (slotPos m pe c h (faceTriple m c).2.1) =
        ((d3 m (faceTriple m c).1 (faceTriple m c).2.1 : ℚ) : ℝ)
      rw [hs1, hs2]
      rw [sq2_comm, d3_comm m (faceTriple m c).1 (faceTriple m c).2.1]
      exact hE
    · show sq2 (slotPos m pe c h (faceTriple m c).2.1) (slotPos m pe c h (faceTriple m c).2.2) =
        ((d3 m (faceTriple m c).2.1 (faceTriple m c).2.2 : ℚ) : ℝ)
      rw [hs2, hs3]
      exact hWU
    · show sq2 (slotPos m pe c h (faceTriple m c).1) (slotPos m pe c h (faceTriple m c).2.2) =
        ((d3 m (faceTriple m c).1 (faceTriple m c).2.2 : ℚ) : ℝ)
      rw [hs1, hs3]
      exact hWV
    · rw [hu]
      have hlk : lookupPos m (childEntry m pe c h) (faceTriple m c).2.1 = slotPos m pe c h (faceTriple m c).2.1 := by
        simp only [lookupPos, childEntry]
        simp [hne12]
      rw [hlk, hs2]
    · rw [hv]
      have hlk : lookupPos m (childEntry m pe c h) (faceTriple m c).1 = slotPos m pe c h (faceTriple m c).1 := by
        simp only [lookupPos, childEntry]
        simp
      rw [hlk, hs1]
  · -- case B1: shared edge occupies slots (2, 3); free slot 1
    have hu : heOrigin m h = (faceTriple m c).2.1 := hou.symm.trans hjo
    have hv : heDest m h = (faceTriple m c).2.2 := hdv.symm.trans hjd
    rw [hu, hv] at hE
    have hw : freeVertex (faceTriple m c) (faceTriple m c).2.1 (faceTriple m c).2.2 = (faceTriple m c).1 := by
      unfold freeVertex
      rw [if_pos ⟨hne12, (fun hq => hne31 hq.symm)⟩]
    have hperm : heronQ (d3 m (faceTriple m c).2.1 (faceTriple m c).2.2) (d3 m (faceTriple m c).2.1 (faceTriple m c).1) (d3 m (faceTriple m c).2.2 (faceTriple m c).1) = heron3 m c := by
      unfold heron3 heronQ d3
      ring
    have hh2 : 0 < heronQ (d3 m (faceTriple m c).2.1 (faceTriple m c).2.2) (d3 m (faceTriple m c).2.1 (faceTriple m c).1) (d3 m (faceTriple m c).2.2 (faceTriple m c).1) := by
      rw [hperm]
      exact hcheck
    obtain ⟨hdU, hdV⟩ := placeApex_sq (lookupPos m pe (faceTriple m c).2.1) (lookupPos m pe (faceTriple m c).2.2)
      (d3 m (faceTriple m c).2.1 (faceTriple m c).2.2) (d3 m (faceTriple m c).2.1 (faceTriple m c).1) (d3 m (faceTriple m c).2.2 (faceTriple m c).1)
      (sideSign (lookupPos m pe (faceTriple m c).2.1) (lookupPos m pe (faceTriple m c).2.2)
        (lookupPos m pe (freeVertex (faceTriple m pe.face) (faceTriple m c).2.1 (faceTriple m c).2.2)))
      (sideSign_unit _ _ _) hh2 (d3_nonneg m _ _) (d3_nonneg m _ _) (d3_nonneg m _ _) hE
    have hWU : sq2 (lookupPos m pe (faceTriple m c).2.1) (childApex m pe c h) = ((d3 m (faceTriple m c).2.1 (faceTriple m c).1 : ℚ) : ℝ) := by
      unfold childApex
      rw [hu, hv, hw]
      exact hdU
    have hWV : sq2 (lookupPos m pe (faceTriple m c).2.2) (childApex m pe c h) = ((d3 m (faceTriple m c).2.2 (faceTriple m c).1 : ℚ) : ℝ) := by
      unfold childApex
      rw [hu, hv, hw]
      exact hdV
    have hs1 : slotPos m pe c h (faceTriple m c).1 = childApex m pe c h := by
      unfold slotPos
      rw [hu, hv]
      rw [if_neg hne12, if_neg (fun hq => hne31 hq.symm)]
    have hs2 : slotPos m pe c h (faceTriple m c).2.1 = lookupPos m pe (faceTriple m c).2.1 := by
      unfold slotPos
      rw [hu, hv]
      rw [if_pos rfl]
    have hs3 : slotPos m pe c h (faceTriple m c).2.2 = lookupPos m pe (faceTriple m c).2.2 := by
      unfold slotPos
      rw [hu, hv]
      rw [if_neg (fun hq => hne23 hq.symm), if_pos rfl]
    refine ⟨⟨hcheck, ?_, ?_, ?_⟩, rfl, ?_, ?_⟩
    · show sq2 (slotPos m pe c h (faceTriple m c).1) (slotPos m pe c h (faceTriple m c).2.1) =
        ((d3 m (faceTriple m c).1 (faceTriple m c).2.1 : ℚ) : ℝ)
      rw [hs1, hs2]
      rw [sq2_comm, d3_comm m (faceTriple m c).1 (faceTriple m c).2.1]
      exact hWU
    · show sq2 (slotPos m pe c h (faceTriple m c).2.1) (slotPos m pe c h (faceTriple m c).2.2) =
        ((d3 m (faceTriple m c).2.1 (faceTriple m c).2.2 : ℚ) : ℝ)
      rw [hs2, hs3]
      exact hE
    · show sq2 (slotPos m pe c h (faceTriple m c).1) (slotPos m pe c h (faceTriple m c).2.2) =
        ((d3 m (faceTriple m c).1 (faceTriple m c).2.2 : ℚ) : ℝ)
      rw [hs1, hs3]
      rw [sq2_comm, d3_comm m (faceTriple m c).1 (faceTriple m c).2.2]
      exact hWV
    · rw [hu]
      have hlk : lookupPos m (childEntry m pe c h) (faceTriple m c).2.1 = slotPos m pe c h (faceTriple m c).2.1 := by
        simp only [lookupPos, childEntry]
        simp [hne12]
      rw [hlk, hs2]
    · rw [hv]
      have hlk : lookupPos m (childEntry m pe c h) (faceTriple m c).2.2 = slotPos m pe c h (faceTriple m c).2.2 := by
        simp only [lookupPos, childEntry]
        simp [Ne.symm hne31, hne23]
      rw [hlk, hs3]
  · -- case B2: shared edge occupies slots (3, 2); free slot 1
    have hv : heDest m h = (faceTriple m c).2.1 := hov.symm.trans hjo
    have hu : heOrigin m h = (faceTriple m c).2.2 := hdu.symm.trans hjd
    rw [hu, hv] at hE
    have hw : freeVertex (faceTriple m c) (faceTriple m c).2.2 (faceTriple m c).2.1 = (faceTriple m c).1 := by
      unfold freeVertex
      rw [if_pos ⟨(fun hq => hne31 hq.symm), hne12⟩]
    have hperm : heronQ (d3 m (faceTriple m c).2.2 (faceTriple m c).2.1) (d3 m (faceTriple m c).2.2 (faceTriple m c).1) (d3 m (faceTriple m c).2.1 (faceTriple m c).1) = heron3 m c := by
      unfold heron3 heronQ d3
      ring
    have hh2 : 0 < heronQ (d3 m (faceTriple m c).2.2 (faceTriple m c).2.1) (d3 m (faceTriple m c).2.2 (faceTriple m c).1) (d3 m (faceTriple m c).2.1 (faceTriple m c).1) := by
      rw [hperm]
      exact hcheck
    obtain ⟨hdU, hdV⟩ := placeApex_sq (lookupPos m pe (faceTriple m c).2.2) (lookupPos m pe (faceTriple m c).2.1)
      (d3 m (faceTriple m c).2.2 (faceTriple m c).2.1) (d3 m (faceTriple m c).2.2 (faceTriple m c).1) (d3 m (faceTriple m c).2.1 (faceTriple m c).1)
      (sideSign (lookupPos m pe (faceTriple m c).2.2) (lookupPos m pe (faceTriple m c).2.1)
        (lookupPos m pe (freeVertex (faceTriple m pe.face) (faceTriple m c).2.2 (faceTriple m c).2.1)))
      (sideSign_unit _ _ _) hh2 (d3_nonneg m _ _) (d3_nonneg m _ _) (d3_nonneg m _ _) hE
    have hWU : sq2 (lookupPos m pe (faceTriple m c).2.2) (childApex m pe c h) = ((d3 m (faceTriple m c).2.2 (faceTriple m c).1 : ℚ) : ℝ) := by
      unfold childApex
      rw [hu, hv, hw]
      exact hdU
    have hWV : sq2 (lookupPos m pe (faceTriple m c).2.1) (childApex m pe c h) = ((d3 m (faceTriple m c).2.1 (faceTriple m c).1 : ℚ) : ℝ) := by
      unfold childApex
      rw [hu, hv, hw]
      exact hdV
    have hs1 : slotPos m pe c h (faceTriple m c).1 = childApex m pe c h := by
      unfold slotPos
      rw [hu, hv]
      rw [if_neg (fun hq => hne31 hq.symm), if_neg hne12]
    have hs2 : slotPos m pe c h (faceTriple m c).2.1 = lookupPos m pe (faceTriple m c).2.1 := by
      unfold slotPos
      rw [hu, hv]
      rw [if_neg hne23, if_pos rfl]
    have hs3 : slotPos m pe c h (faceTriple m c).2.2 = lookupPos m pe (faceTriple m c).2.2 := by
      unfold slotPos
      rw [hu, hv]
      rw [if_pos rfl]
    refine ⟨⟨hcheck, ?_, ?_, ?_⟩, rfl, ?_, ?_⟩
    · show sq2 (slotPos m pe c h (faceTriple m c).1) (slotPos m pe c h (faceTriple m c).2.1) =
        ((d3 m (faceTriple m c).1 (faceTriple m c).2.1 : ℚ) : ℝ)
      rw [hs1, hs2]
      rw [sq2_comm, d3_comm m (faceTriple m c).1 (faceTriple m c).2.1]
      exact hWV
    · show sq2 (slotPos m pe c h (faceTriple m c).2.1) (slotPos m pe c h (faceTriple m c).2.2) =
        ((d3 m (faceTriple m c).2.1 (faceTriple m c).2.2 : ℚ) : ℝ)
      rw [hs2, hs3]
      rw [sq2_comm, d3_comm m (faceTriple m c).2.1 (faceTriple m c).2.2]
      exact hE
    · show sq2 (slotPos m pe c h (faceTriple m c).1) (slotPos m pe c h (faceTriple m c).2.2) =
        ((d3 m (faceTriple m c).1 (faceTriple m c).2.2 : ℚ) : ℝ)
      rw [hs1, hs3]
      rw [sq2_comm, d3_comm m (faceTriple m c).1 (faceTriple m c).2.2]
      exact hWU
    · rw [hu]
      have hlk : lookupPos m (childEntry m pe c h) (faceTriple m c).2.2 = slotPos m pe c h (faceTriple m c).2.2 := by
        simp only [lookupPos, childEntry]
        simp [Ne.symm hne31, hne23]
      rw [hlk, hs3]
    · rw [hv]
      have hlk : lookupPos m (childEntry m pe c h) (faceTriple m c).2.1 = slotPos m pe c h (faceTriple m c).2.1 := by
        simp only [lookupPos, childEntry]
        simp [hne12]
      rw [hlk, hs2]
  · -- case C1: shared edge occupies slots (3, 1); free slot 2
    have hu : heOrigin m h = (faceTriple m c).2.2 := hou.symm.trans hjo
    have hv : heDest m h = (faceTriple m c).1 := hdv.symm.trans hjd
    rw [hu, hv] at hE
    have hw : freeVertex (faceTriple m c) (faceTriple m c).2.2 (faceTriple m c).1 = (faceTriple m c).2.1 := by
      unfold freeVertex
      rw [if_neg (by simp), if_pos ⟨hne23, (fun hq => hne12 hq.symm)⟩]
    have hperm : heronQ (d3 m (faceTriple m c).2.2 (faceTriple m c).1) (d3 m (faceTriple m c).2.2 (faceTriple m c).2.1) (d3 m (faceTriple m c).1 (faceTriple m c).2.1) = heron3 m c := by
      unfold heron3 heronQ d3
      ring
    have hh2 : 0 < heronQ (d3 m (faceTriple m c).2.2 (faceTriple m c).1) (d3 m (faceTriple m c).2.2 (faceTriple m c).2.1) (d3 m (faceTriple m c).1 (faceTriple m c).2.1) := by
      rw [hperm]
      exact hcheck
    obtain ⟨hdU, hdV⟩ := placeApex_sq (lookupPos m pe (faceTriple m c).2.2) (lookupPos m pe (faceTriple m c).1)
      (d3 m (faceTriple m c).2.2 (faceTriple m c).1) (d3 m (faceTriple m c).2.2 (faceTriple m c).2.1) (d3 m (faceTriple m c).1 (faceTriple m c).2.1)
      (sideSign (lookupPos m pe (faceTriple m c).2.2) (lookupPos m pe (faceTriple m c).1)
        (lookupPos m pe (freeVertex (faceTriple m pe.face) (faceTriple m c).2.2 (faceTriple m c).1)))
      (sideSign_unit _ _ _) hh2 (d3_nonneg m _ _) (d3_nonneg m _ _) (d3_nonneg m _ _) hE
    have hWU : sq2 (lookupPos m pe (faceTriple m c).2.2) (childApex m pe c h) = ((d3 m (faceTriple m c).2.2 (faceTriple m c).2.1 : ℚ) : ℝ) := by
      unfold childApex
      rw [hu, hv, hw]
      exact hdU
    have hWV : sq2 (lookupPos m pe (faceTriple m c).1) (childApex m pe c h) = ((d3 m (faceTriple m c).1 (faceTriple m c).2.1 : ℚ) : ℝ) := by
      unfold childApex
      rw [hu, hv, hw]
      exact hdV
    have hs1 : slotPos m pe c h (faceTriple m c).1 = lookupPos m pe (faceTriple m c).1 := by
      unfold slotPos
      rw [hu, hv]
      rw [if_neg (fun hq => hne31 hq.symm), if_pos rfl]
    have hs2 : slotPos m pe c h (faceTriple m c).2.1 = childApex m pe c h := by
      unfold slotPos
      rw [hu, hv]
      rw [if_neg hne23, if_neg (fun hq => hne12 hq.symm)]
    have hs3 : slotPos m pe c h (faceTriple m c).2.2 = lookupPos m pe (faceTriple m c).2.2 := by
      unfold slotPos
      rw [hu, hv]
      rw [if_pos rfl]
    refine ⟨⟨hcheck, ?_, ?_, ?_⟩, rfl, ?_, ?_⟩
    · show sq2 (slotPos m pe c h (faceTriple m c).1) (slotPos m pe c h (faceTriple m c).2.1) =
        ((d3 m (faceTriple m c).1 (faceTriple m c).2.1 : ℚ) : ℝ)
      rw [hs1, hs2]
      exact hWV
    · show sq2 (slotPos m pe c h (faceTriple m c).2.1) (slotPos m pe c h (faceTriple m c).2.2) =
        ((d3 m (faceTriple m c).2.1 (faceTriple m c).2.2 : ℚ) : ℝ)
      rw [hs2, hs3]
      rw [sq2_comm, d3_comm m (faceTriple m c).2.1 (faceTriple m c).2.2]
      exact hWU
    · show sq2 (slotPos m pe c h (faceTriple m c).1) (slotPos m pe c h (faceTriple m c).2.2) =
        ((d3 m (faceTriple m c).1 (faceTriple m c).2.2 : ℚ) : ℝ)
      rw [hs1, hs3]
      rw [sq2_comm, d3_comm m (faceTriple m c).1 (faceTriple m c).2.2]
      exact hE
    · rw [hu]
      have hlk : lookupPos m (childEntry m pe c h) (faceTriple m c).2.2 = slotPos m pe c h (faceTriple m c).2.2 := by
        simp only [lookupPos, childEntry]
        simp [Ne.symm hne31, hne23]
      rw [hlk, hs3]
    · rw [hv]
      have hlk : lookupPos m (childEntry m pe c h) (faceTriple m c).1 = slotPos m pe c h (faceTriple m c).1 := by
        simp only [lookupPos, childEntry]
        simp
      rw [hlk, hs1]
  · -- case C2: shared edge occupies slots (1, 3); free slot 2
    have hv : heDest m h = (faceTriple m c).2.2 := hov.symm.trans hjo
    have hu : heOrigin m h = (faceTriple m c).1 := hdu.symm.trans hjd
    rw [hu, hv] at hE
    have hw : freeVertex (faceTriple m c) (faceTriple m c).1 (faceTriple m c).2.2 = (faceTriple m c).2.1 := by
      unfold freeVertex
      rw [if_neg (by simp), if_pos ⟨(fun hq => hne12 hq.symm), hne23⟩]
    have hperm : heronQ (d3 m (faceTriple m c).1 (faceTriple m c).2.2) (d3 m (faceTriple m c).1 (faceTriple m c).2.1) (d3 m (faceTriple m c).2.2 (faceTriple m c).2.1) = heron3 m c := by
      unfold heron3 heronQ d3
      ring
    have hh2 : 0 < heronQ (d3 m (faceTriple m c).1 (faceTriple m c).2.2) (d3 m (faceTriple m c).1 (faceTriple m c).2.1) (d3 m (faceTriple m c).2.2 (faceTriple m c).2.1) := by
      rw [hperm]
      exact hcheck
    obtain ⟨hdU, hdV⟩ := placeApex_sq (lookupPos m pe (faceTriple m c).1) (lookupPos m pe (faceTriple m c).2.2)
      (d3 m (faceTriple m c).1 (faceTriple m c).2.2) (d3 m (faceTriple m c).1 (faceTriple m c).2.1) (d3 m (faceTriple m c).2.2 (faceTriple m c).2.1)
      (sideSign (lookupPos m pe (faceTriple m c).1) (lookupPos m pe (faceTriple m c).2.2)
        (lookupPos m pe (freeVertex (faceTriple m pe.face) (faceTriple m c).1 (faceTriple m c).2.2)))
      (sideSign_unit _ _ _) hh2 (d3_nonneg m _ _) (d3_nonneg m _ _) (d3_nonneg m _ _) hE
    have hWU : sq2 (lookupPos m pe (faceTriple m c).1) (childApex m pe c h) = ((d3 m (faceTriple m c).1 (faceTriple m c).2.1 : ℚ) : ℝ) := by
      unfold childApex
      rw [hu, hv, hw]
      exact hdU
    have hWV : sq2 (lookupPos m pe (faceTriple m c).2.2) (childApex m pe c h) = ((d3 m (faceTriple m c).2.2 (faceTriple m c).2.1 : ℚ) : ℝ) := by
      unfold childApex
      rw [hu, hv, hw]
      exact hdV
    have hs1 : slotPos m pe c h (faceTriple m c).1 = lookupPos m pe (faceTriple m c).1 := by
      unfold slotPos
      rw [hu, hv]
      rw [if_pos rfl]
    have hs2 : slotPos m pe c h (faceTriple m c).2.1 = childApex m pe c h := by
      unfold slotPos
      rw [hu, hv]
      rw [if_neg (fun hq => hne12 hq.symm), if_neg hne23]
    have hs3 : slotPos m pe c h (faceTriple m c).2.2 = lookupPos m pe (faceTriple m c).2.2 := by
      unfold slotPos
      rw [hu, hv]
      rw [if_neg hne31, if_pos rfl]
    refine ⟨⟨hcheck, ?_, ?_, ?_⟩, rfl, ?_, ?_⟩
    · show sq2 (slotPos m pe c h (faceTriple m c).1) (slotPos m pe c h (faceTriple m c).2.1) =
        ((d3 m (faceTriple m c).1 (faceTriple m c).2.1 : ℚ) : ℝ)
      rw [hs1, hs2]
      exact hWU
    · show sq2 (slotPos m pe c h (faceTriple m c).2.1) (slotPos m pe c h (faceTriple m c).2.2) =
        ((d3 m (faceTriple m c).2.1 (faceTriple m c).2.2 : ℚ) : ℝ)
      rw [hs2, hs3]
      rw [sq2_comm, d3_comm m (faceTriple m c).2.1 (faceTriple m c).2.2]
      exact hWV
    · show sq2 (slotPos m pe c h (faceTriple m c).1) (slotPos m pe c h (faceTriple m c).2.2) =
        ((d3 m (faceTriple m c).1 (faceTriple m c).2.2 : ℚ) : ℝ)
      rw [hs1, hs3]
      exact hE
    · rw [hu]
      have hlk : lookupPos m (childEntry m pe c h) (faceTriple m c).1 = slotPos m pe c h (faceTriple m c).1 := by
        simp only [lookupPos, childEntry]
        simp
      rw [hlk, hs1]
    · rw [hv]
      have hlk : lookupPos m (childEntry m pe c h) (faceTriple m c).2.2 = slotPos m pe c h (faceTriple m c).2.2 := by
        simp only [lookupPos, childEntry]
        simp [Ne.symm hne31, hne23]
      rw [hlk, hs3]

@[simp] theorem entryFaces_nil : entryFaces [] = [] := rfl

@[simp] theorem entryFaces_cons (en : NetEntry) (es : List NetEntry) :
    entryFaces (en :: es) = en.face :: entryFaces es := rfl

@[simp] theorem entryFaces_append (es fs : List NetEntry) :
    entryFaces (es ++ fs) = entryFaces es ++ entryFaces fs := List.map_append _ _ _

theorem findEntry_mem (acc : List NetEntry) (p : Nat) (hp : p ∈ entryFaces acc) :
    findEntry acc p ∈ acc ∧ (findEntry acc p).face = p := by
  have hex : ∃ en ∈ acc, (en.face == p) = true := by
    obtain ⟨en, hen, hface⟩ : ∃ en ∈ acc, en.face = p := by
      simpa [entryFaces] using hp
    exact ⟨en, hen, by simp [hface]⟩
  have hsome : (acc.find? (fun en => en.face == p)).isSome = true :=
    List.find?_isSome.mpr hex
  obtain ⟨en, hen⟩ := Option.isSome_iff_exists.mp hsome
  have h1 := List.mem_of_find?_eq_some hen
  have h2 := List.find?_some hen
  unfold findEntry
  rw [hen]
  simp only [Option.getD_some]
  exact ⟨h1, by simpa using h2⟩

theorem foldl_netStepP_good (m : MeshData) :
    ∀ (t : List STNode) (acc : List NetEntry),
      ParentsOK m (entryFaces acc) t →
      (∀ en ∈ acc, entryGood m en) →
      netResultOk m t = true →
      (∀ en ∈ t.foldl (netStepP m) acc, entryGood m en) ∧
        entryFaces (t.foldl (netStepP m) acc) = entryFaces acc ++ treeFaces t := by
  intro t
  induction t with
  | nil => intro acc _ hG _; exact ⟨hG, by simp⟩
  | cons nd t ih =>
    intro acc hP hG hok
    have hsplit : nodeOK m (entryFaces acc) nd ∧
        ParentsOK m (entryFaces acc ++ [nd.face]) t := hP
    rw [netResultOk, List.all_cons] at hok
    obtain ⟨hnd, hok2⟩ := Bool.and_eq_true_iff.mp hok
    have hcheck : 0 < heron3 m nd.face := of_decide_eq_true hnd
    have hnew : entryGood m (mkEntry m acc nd) ∧ (mkEntry m acc nd).face = nd.face := by
      cases hpar : nd.parent with
      | none =>
        have hroot := rootEntry_good m nd.face hcheck
        unfold mkEntry
        rw [hpar]
        exact hroot
      | some ph =>
        obtain ⟨p, h⟩ := ph
        obtain ⟨hpseen, hlt, hface, htwin⟩ := hsplit.1 p h hpar
        obtain ⟨hfm, hfface⟩ := findEntry_mem acc p hpseen
        have hpe : entryGood m (findEntry acc p) := hG _ hfm
        have hface2 : heFace h = (findEntry acc p).face := by rw [hfface]; exact hface
        have hchild := childEntry_good m (findEntry acc p) nd.face h hpe hface2 htwin hcheck
        unfold mkEntry
        rw [hpar]
        exact ⟨hchild.1, hchild.2.1⟩
    show (∀ en ∈ t.foldl (netStepP m) (netStepP m acc nd), entryGood m en) ∧
      entryFaces (t.foldl (netStepP m) (netStepP m acc nd)) =
        entryFaces acc ++ treeFaces (nd :: t)
    have hGacc2 : ∀ en ∈ netStepP m acc nd, entryGood m en := by
      intro en hen
      rcases List.mem_append.mp hen with h1 | h1
      · exact hG en h1
      · simp only [List.mem_singleton] at h1
        subst h1
        exact hnew.1
    have hfaces2 : entryFaces (netStepP m acc nd) = entryFaces acc ++ [nd.face] := by
      unfold netStepP
      rw [entryFaces_append]
      simp [entryFaces, hnew.2]
    have hP2 : ParentsOK m (entryFaces (netStepP m acc nd)) t := by
      rw [hfaces2]
      exact hsplit.2
    obtain ⟨hg, hf⟩ := ih (netStepP m acc nd) hP2 hGacc2 hok2
    refine ⟨hg, ?_⟩
    rw [hf, hfaces2]
    simp [treeFaces]

theorem netBuildE_ok_elim (m : MeshData) (t : List STNode) (es : List NetEntry)
    (h : netBuildE m t = .ok es) : netResultOk m t = true ∧ es = netEntries m t := by
  cases hok : netResultOk m t with
  | false =>
    rw [netBuildE_err_of m t hok] at h
    exact absurd h (by simp)
  | true =>
    rw [netBuildE_ok_of m t hok] at h
    injection h with h
    exact ⟨rfl, h.symm⟩

theorem netEntries_good (m : MeshData) (t : List STNode)
    (hP : ParentsOK m [] t) (hok : netResultOk m t = true) :
    (∀ en ∈ netEntries m t, entryGood m en) ∧
      entryFaces (netEntries m t) = treeFaces t := by
  have hres := foldl_netStepP_good m t [] hP (by simp) hok
  simpa [netEntries] using hres

/-- Claim C1: every face appearing in the unfolded net preserves its three
pairwise distances: the squared (hence also the actual) planar distances
between its three placed vertices equal the corresponding 3D squared
distances of its original vertices — the unfold is edge-length preserving. -/
theorem unfold_preserves_lengths (md : MeshData) (m : HalfEdgeMesh) (seed : Nat)
    (t : List STNode) (es : List NetEntry)
    (hacc : buildMesh md = .ok m) (hok : spanTreeE m seed = .ok t)
    (hnet : netBuildE m t = .ok es) :
    ∀ en ∈ es,
      (sq2 en.p1 en.p2 =
          ((d3 m (faceTriple m en.face).1 (faceTriple m en.face).2.1 : ℚ) : ℝ) ∧
        sq2 en.p2 en.p3 =
          ((d3 m (faceTriple m en.face).2.1 (faceTriple m en.face).2.2 : ℚ) : ℝ) ∧
        sq2 en.p1 en.p3 =
          ((d3 m (faceTriple m en.face).1 (faceTriple m en.face).2.2 : ℚ) : ℝ)) ∧
      (Real.sqrt (sq2 en.p1 en.p2) =
          Real.sqrt ((d3 m (faceTriple m en.face).1 (faceTriple m en.face).2.1 : ℚ)) ∧
        Real.sqrt (sq2 en.p2 en.p3) =
          Real.sqrt ((d3 m (faceTriple m en.face).2.1 (faceTriple m en.face).2.2 : ℚ)) ∧
        Real.sqrt (sq2 en.p1 en.p3) =
          Real.sqrt ((d3 m (faceTriple m en.face).1 (faceTriple m en.face).2.2 : ℚ))) := by
  obtain ⟨hokB, hes⟩ := netBuildE_ok_elim m t es hnet
  subst hes
  have hP := (spanTree_inv m seed t hok).1
  obtain ⟨hgood, -⟩ := netEntries_good m t hP hokB
  intro en hen
  obtain ⟨-, h1, h2, h3⟩ := hgood en hen
  exact ⟨⟨h1, h2, h3⟩, by rw [h1], by rw [h2], by rw [h3]⟩

/-- Every face of the tetrahedron passes the degeneracy check. -/
theorem tetMesh_faces_ok : ∀ f, f < numFaces tetMesh → 0 < heron3 tetMesh f := by
  intro f hf
  have hf4 : f = 0 ∨ f = 1 ∨ f = 2 ∨ f = 3 := by
    have : numFaces tetMesh = 4 := rfl
    omega
  rcases hf4 with rfl | rfl | rfl | rfl <;>
    norm_num [heron3, heronQ, d3, vpos, faceTriple, tetMesh]

theorem tetTree_ok : netResultOk tetMesh tetTree = true := by
  rw [netResultOk, List.all_eq_true]
  intro nd hnd
  have hinv := spanTree_inv tetMesh 0 tetTree rfl
  have hface : nd.face < numFaces tetMesh :=
    hinv.2.2 nd.face (List.mem_map_of_mem _ hnd)
  exact decide_eq_true (tetMesh_faces_ok nd.face hface)

/-- Witness for C1 at the regular tetrahedron of spec §8. -/
theorem unfold_preserves_lengths_witness :
    netBuildE tetMesh tetTree = .ok (netEntries tetMesh tetTree) ∧
      ∀ en ∈ netEntries tetMesh tetTree,
        (sq2 en.p1 en.p2 =
            ((d3 tetMesh (faceTriple tetMesh en.face).1
              (faceTriple tetMesh en.face).2.1 : ℚ) : ℝ) ∧
          sq2 en.p2 en.p3 =
            ((d3 tetMesh (faceTriple tetMesh en.face).2.1
              (faceTriple tetMesh en.face).2.2 : ℚ) : ℝ) ∧
          sq2 en.p1 en.p3 =
            ((d3 tetMesh (faceTriple tetMesh en.face).1
              (faceTriple tetMesh en.face).2.2 : ℚ) : ℝ)) ∧
        (Real.sqrt (sq2 en.p1 en.p2) =
            Real.sqrt ((d3 tetMesh (faceTriple tetMesh en.face).1
              (faceTriple tetMesh en.face).2.1 : ℚ)) ∧
          Real.sqrt (sq2 en.p2 en.p3) =
            Real.sqrt ((d3 tetMesh (faceTriple tetMesh en.face).2.1
              (faceTriple tetMesh en.face).2.2 : ℚ)) ∧
          Real.sqrt (sq2 en.p1 en.p3) =
            Real.sqrt ((d3 tetMesh (faceTriple tetMesh en.face).1
              (faceTriple tetMesh en.face).2.2 : ℚ))) :=
  ⟨netBuildE_ok_of tetMesh tetTree tetTree_ok,
    unfold_preserves_lengths tetMesh tetMesh 0 tetTree (netEntries tetMesh tetTree)
      rfl rfl (netBuildE_ok_of tetMesh tetTree tetTree_ok)⟩

theorem parentsOK_append (m : MeshData) (l2 : List STNode) :
    ∀ (l1 : List STNode) (seen : List Nat),
      ParentsOK m seen (l1 ++ l2) ↔
        ParentsOK m seen l1 ∧ ParentsOK m (seen ++ treeFaces l1) l2 := by
  intro l1
  induction l1 with
  | nil =>
    intro seen
    constructor
    · intro h; exact ⟨trivial, by simpa using h⟩
    · rintro ⟨-, h⟩; simpa using h
  | cons a l ih =>
    intro seen
    simp only [List.cons_append, ParentsOK, treeFaces_cons, List.append_eq]
    rw [ih]
    constructor
    · rintro ⟨h1, h2, h3⟩
      exact ⟨⟨h1, h2⟩, by simpa [List.append_assoc] using h3⟩
    · rintro ⟨⟨h1, h2⟩, h3⟩
      exact ⟨h1, h2, by simpa [List.append_assoc] using h3⟩

theorem foldl_netStepP_extend (m : MeshData) :
    ∀ (t : List STNode) (acc : List NetEntry),
      ∃ ext, t.foldl (netStepP m) acc = acc ++ ext := by
  intro t
  induction t with
  | nil => intro acc; exact ⟨[], by simp⟩
  | cons nd t ih =>
    intro acc
    obtain ⟨ext, hext⟩ := ih (netStepP m acc nd)
    refine ⟨[mkEntry m acc nd] ++ ext, ?_⟩
    rw [List.foldl_cons, hext]
    unfold netStepP
    rw [List.append_assoc]

theorem foldl_netStepP_length (m : MeshData) :
    ∀ (t : List STNode) (acc : List NetEntry),
      (t.foldl (netStepP m) acc).length = acc.length + t.length := by
  intro t
  induction t with
  | nil => intro acc; simp
  | cons nd t ih =>
    intro acc
    rw [List.foldl_cons, ih]
    unfold netStepP
    simp
    omega

theorem getD_append_length {α : Type} (l1 l2 : List α) (d : α) :
    (l1 ++ l2).getD l1.length d = l2.getD 0 d := by
  induction l1 with
  | nil => simp
  | cons a l ih => simpa using ih

/-- Decomposition of the built entries at tree position `j`: the entries of
the first `j` nodes, then the placement of node `j`, then the rest. -/
theorem netEntries_decomp (m : MeshData) (t : List STNode) (j : Nat)
    (hj : j < t.length) :
    ∃ ext, netEntries m t =
      netEntries m (t.take j) ++
        [mkEntry m (netEntries m (t.take j)) (t.getD j ⟨0, none⟩)] ++ ext := by
  have hsplit : t = t.take j ++ (t.getD j ⟨0, none⟩ :: t.drop (j + 1)) := by
    rw [List.getD_eq_getElem _ _ hj, ← List.drop_eq_getElem_cons hj,
      List.take_append_drop]
  obtain ⟨ext, hext⟩ := foldl_netStepP_extend m (t.drop (j + 1))
    (netStepP m (netEntries m (t.take j)) (t.getD j ⟨0, none⟩))
  refine ⟨ext, ?_⟩
  calc netEntries m t
      = ((t.take j ++ (t.getD j ⟨0, none⟩ :: t.drop (j + 1))).foldl (netStepP m) []) := by
        rw [← hsplit]; rfl
    _ = (t.getD j ⟨0, none⟩ :: t.drop (j + 1)).foldl (netStepP m)
          (netEntries m (t.take j)) := by
        rw [List.foldl_append]; rfl
    _ = (t.drop (j + 1)).foldl (netStepP m)
          (netStepP m (netEntries m (t.take j)) (t.getD j ⟨0, none⟩)) := rfl
    _ = netStepP m (netEntries m (t.take j)) (t.getD j ⟨0, none⟩) ++ ext := hext
    _ = netEntries m (t.take j) ++
          [mkEntry m (netEntries m (t.take j)) (t.getD j ⟨0, none⟩)] ++ ext := by
        unfold netStepP; rfl

theorem netEntries_take_length (m : MeshData) (t : List STNode) (j : Nat)
    (hj : j < t.length) : (netEntries m (t.take j)).length = j := by
  rw [netEntries, foldl_netStepP_length]
  simp [List.length_take]
  omega

/-- Claim C2: for every non-root node of the spanning tree, the two vertices
of the shared edge are placed in the child's unfolded entry at exactly the
positions the parent's entry assigns to those same vertex ids. -/
theorem unfold_shared_edge (md : MeshData) (m : HalfEdgeMesh) (seed : Nat)
    (t : List STNode) (es : List NetEntry)
    (hacc : buildMesh md = .ok m) (hok : spanTreeE m seed = .ok t)
    (hnet : netBuildE m t = .ok es) :
    ∀ j, j < t.length → ∀ p h, (t.getD j ⟨0, none⟩).parent = some (p, h) →
      ∃ i, i < j ∧ (es.getD i junkEntry).face = p ∧
        lookupPos m (es.getD j junkEntry) (heOrigin m h) =
          lookupPos m (es.getD i junkEntry) (heOrigin m h) ∧
        lookupPos m (es.getD j junkEntry) (heDest m h) =
          lookupPos m (es.getD i junkEntry) (heDest m h) := by
  obtain ⟨hokB, hes⟩ := netBuildE_ok_elim m t es hnet
  subst hes
  intro j hj p h hpar
  have hP := (spanTree_inv m seed t hok).1
  -- split the tree at position j
  have hsplit : t = t.take j ++ (t.getD j ⟨0, none⟩ :: t.drop (j + 1)) := by
    rw [List.getD_eq_getElem _ _ hj, ← List.drop_eq_getElem_cons hj,
      List.take_append_drop]
  have hPsplit : ParentsOK m [] (t.take j) ∧
      ParentsOK m ([] ++ treeFaces (t.take j))
        (t.getD j ⟨0, none⟩ :: t.drop (j + 1)) := by
    rw [← parentsOK_append]
    rw [← hsplit]
    exact hP
  have hnode : nodeOK m ([] ++ treeFaces (t.take j)) (t.getD j ⟨0, none⟩) ∧
      ParentsOK m (([] ++ treeFaces (t.take j)) ++ [(t.getD j ⟨0, none⟩).face])
        (t.drop (j + 1)) := hPsplit.2
  obtain ⟨hpseen, hlt, hface, htwin⟩ := hnode.1 p h hpar
  have hpseen2 : p ∈ treeFaces (t.take j) := by simpa using hpseen
  -- the prefix entries are good and carry the prefix faces
  have hok1 : netResultOk m (t.take j) = true := by
    rw [netResultOk, List.all_eq_true]
    intro nd hnd
    rw [netResultOk, List.all_eq_true] at hokB
    exact hokB nd (List.take_subset j t hnd)
  obtain ⟨hprefGood, hprefFaces⟩ := netEntries_good m (t.take j) hPsplit.1 hok1
  have hplen : (netEntries m (t.take j)).length = j := netEntries_take_length m t j hj
  -- locate the parent entry
  have hpfaces : p ∈ entryFaces (netEntries m (t.take j)) := by
    rw [hprefFaces]; exact hpseen2
  obtain ⟨hpe_mem, hpe_face⟩ := findEntry_mem (netEntries m (t.take j)) p hpfaces
  obtain ⟨i, hilen, hie⟩ := List.mem_iff_getElem.mp hpe_mem
  have hij : i < j := by rw [hplen] at hilen; exact hilen
  -- entries decomposition
  obtain ⟨ext, hdecomp⟩ := netEntries_decomp m t j hj
  have hesi : (netEntries m t).getD i junkEntry =
      findEntry (netEntries m (t.take j)) p := by
    rw [hdecomp, List.append_assoc]
    rw [List.getD_append _ _ _ i (by rw [hplen]; exact hij)]
    rw [List.getD_eq_getElem _ _ hilen]
    exact hie
  have hesj : (netEntries m t).getD j junkEntry =
      mkEntry m (netEntries m (t.take j)) (t.getD j ⟨0, none⟩) := by
    have hgl := getD_append_length (netEntries m (t.take j))
      ([mkEntry m (netEntries m (t.take j)) (t.getD j ⟨0, none⟩)] ++ ext) junkEntry
    rw [hplen] at hgl
    rw [hdecomp, List.append_assoc, hgl]
    rfl
  -- the child placement preserves the parent's shared-edge positions
  have hcheck : 0 < heron3 m (t.getD j ⟨0, none⟩).face := by
    rw [netResultOk, List.all_eq_true] at hokB
    refine of_decide_eq_true (hokB (t.getD j ⟨0, none⟩) ?_)
    rw [List.getD_eq_getElem _ _ hj]
    exact List.getElem_mem hj
  have hface2 : heFace h = (findEntry (netEntries m (t.take j)) p).face := by
    rw [hpe_face]; exact hface
  have hchild := childEntry_good m (findEntry (netEntries m (t.take j)) p)
    (t.getD j ⟨0, none⟩).face h (hprefGood _ hpe_mem) hface2 htwin hcheck
  have hmk : mkEntry m (netEntries m (t.take j)) (t.getD j ⟨0, none⟩) =
      childEntry m (findEntry (netEntries m (t.take j)) p)
        (t.getD j ⟨0, none⟩).face h := by
    unfold mkEntry
    rw [hpar]
  refine ⟨i, hij, ?_, ?_, ?_⟩
  · rw [hesi]; exact hpe_face
  · rw [hesi, hesj, hmk]
    exact hchild.2.2.1
  · rw [hesi, hesj, hmk]
    exact hchild.2.2.2

/-- Witness for C2 at the tetrahedron: tree node 1 shares an edge with its
parent, the root face 0. -/
theorem unfold_shared_edge_witness :
    1 < tetTree.length ∧ (tetTree.getD 1 ⟨0, none⟩).parent = some (0, 0) ∧
      ∃ i, i < 1 ∧ ((netEntries tetMesh tetTree).getD i junkEntry).face = 0 ∧
        lookupPos tetMesh ((netEntries tetMesh tetTree).getD 1 junkEntry)
            (heOrigin tetMesh 0) =
          lookupPos tetMesh ((netEntries tetMesh tetTree).getD i junkEntry)
            (heOrigin tetMesh 0) ∧
        lookupPos tetMesh ((netEntries tetMesh tetTree).getD 1 junkEntry)
            (heDest tetMesh 0) =
          lookupPos tetMesh ((netEntries tetMesh tetTree).getD i junkEntry)
            (heDest tetMesh 0) :=
  ⟨by decide, by decide,
    unfold_shared_edge tetMesh tetMesh 0 tetTree (netEntries tetMesh tetTree)
      rfl rfl (netBuildE_ok_of tetMesh tetTree tetTree_ok) 1 (by decide) 0 0 (by decide)⟩

theorem netEntries_length (m : MeshData) (t : List STNode) :
    (netEntries m t).length = t.length := by
  rw [netEntries, foldl_netStepP_length]
  simp

theorem flatPts_length (es : List NetEntry) : (flatPts es).length = 3 * es.length := by
  induction es with
  | nil => rfl
  | cons en es ih =>
    show (en.p1 :: en.p2 :: en.p3 :: flatPts es).length = 3 * (es.length + 1)
    simp only [List.length_cons, ih]
    omega

theorem flatPts_getD (es : List NetEntry) :
    ∀ (j : Nat), j < es.length →
      (flatPts es).getD (3 * j) ⟨0, 0⟩ = (es.getD j junkEntry).p1 ∧
        (flatPts es).getD (3 * j + 1) ⟨0, 0⟩ = (es.getD j junkEntry).p2 ∧
        (flatPts es).getD (3 * j + 2) ⟨0, 0⟩ = (es.getD j junkEntry).p3 := by
  induction es with
  | nil => intro j hj; simp at hj
  | cons en es ih =>
    intro j hj
    have hcons : flatPts (en :: es) = en.p1 :: en.p2 :: en.p3 :: flatPts es := rfl
    cases j with
    | zero => rw [hcons]; exact ⟨rfl, rfl, rfl⟩
    | succ j =>
      have hj2 : j < es.length := by
        simp only [List.length_cons] at hj
        omega
      obtain ⟨h1, h2, h3⟩ := ih j hj2
      refine ⟨?_, ?_, ?_⟩
      · rw [hcons, show 3 * (j + 1) = 3 * j + 1 + 1 + 1 by ring]
        simp only [List.getD_cons_succ]
        exact h1
      · rw [hcons, show 3 * (j + 1) + 1 = 3 * j + 1 + 1 + 1 + 1 by ring]
        simp only [List.getD_cons_succ]
        exact h2
      · rw [hcons, show 3 * (j + 1) + 2 = 3 * j + 2 + 1 + 1 + 1 by ring]
        simp only [List.getD_cons_succ]
        exact h3

/-- In a good entry, looking up each slot's vertex id returns that slot's
placed point: the three points correspond 1:1, in original order, to the
face's three vertex indices. -/
theorem lookupPos_slots (m : MeshData) (en : NetEntry) (hg : entryGood m en) :
    lookupPos m en (faceTriple m en.face).1 = en.p1 ∧
      lookupPos m en (faceTriple m en.face).2.1 = en.p2 ∧
      lookupPos m en (faceTriple m en.face).2.2 = en.p3 := by
  obtain ⟨-, -, -, hne12, hne23, hne31⟩ := heron3_pos_distinct m en.face hg.1
  refine ⟨?_, ?_, ?_⟩
  · unfold lookupPos
    rw [if_pos rfl]
  · unfold lookupPos
    rw [if_neg hne12, if_pos rfl]
  · unfold lookupPos
    rw [if_neg (fun hq => hne31 hq.symm), if_neg hne23, if_pos rfl]

/-- Claim C8: the output is the flat sequence of the placed entries: three
points per face of the seed's component, grouped consecutively in tree
order, and for each triangle the three points are the placed positions of
that face's three source vertex indices, in their original order. -/
theorem unfold_output_contract (md : MeshData) (m : HalfEdgeMesh) (seed : Nat)
    (t : List STNode) (es : List NetEntry)
    (hacc : buildMesh md = .ok m) (hok : spanTreeE m seed = .ok t)
    (hnet : netBuildE m t = .ok es) :
    unfoldPipeline md seed = .ok (flatPts es) ∧
      (flatPts es).length = 3 * t.length ∧
      t.length = Set.ncard {g | Reach m seed g} ∧
      ∀ j, j < t.length →
        (es.getD j junkEntry).face = (t.getD j ⟨0, none⟩).face ∧
        (flatPts es).getD (3 * j) ⟨0, 0⟩ = (es.getD j junkEntry).p1 ∧
        (flatPts es).getD (3 * j + 1) ⟨0, 0⟩ = (es.getD j junkEntry).p2 ∧
        (flatPts es).getD (3 * j + 2) ⟨0, 0⟩ = (es.getD j junkEntry).p3 ∧
        lookupPos m (es.getD j junkEntry)
            (faceTriple m (es.getD j junkEntry).face).1 = (es.getD j junkEntry).p1 ∧
        lookupPos m (es.getD j junkEntry)
            (faceTriple m (es.getD j junkEntry).face).2.1 = (es.getD j junkEntry).p2 ∧
        lookupPos m (es.getD j junkEntry)
            (faceTriple m (es.getD j junkEntry).face).2.2 = (es.getD j junkEntry).p3 := by
  obtain ⟨hokB, hes⟩ := netBuildE_ok_elim m t es hnet
  subst hes
  have hlen : (netEntries m t).length = t.length := netEntries_length m t
  obtain ⟨hgood, hfaces⟩ :=
    netEntries_good m t (spanTree_inv m seed t hok).1 hokB
  refine ⟨?_, ?_, spanTree_card m seed t hok, ?_⟩
  · unfold unfoldPipeline
    simp [hacc, hok, hnet]
  · rw [flatPts_length, hlen]
  · intro j hj
    have hjes : j < (netEntries m t).length := by rw [hlen]; exact hj
    have hen_mem : (netEntries m t).getD j junkEntry ∈ netEntries m t := by
      rw [List.getD_eq_getElem _ _ hjes]
      exact List.getElem_mem hjes
    have hgj := hgood _ hen_mem
    obtain ⟨hl1, hl2, hl3⟩ := lookupPos_slots m _ hgj
    obtain ⟨hf1, hf2, hf3⟩ := flatPts_getD (netEntries m t) j hjes
    refine ⟨?_, hf1, hf2, hf3, hl1, hl2, hl3⟩
    have hgf := congrArg (fun l : List Nat => l.getD j 0) hfaces
    simp only [entryFaces, treeFaces] at hgf
    rw [List.getD_eq_getElem _ _ (by simpa using hjes),
      List.getD_eq_getElem _ _ (by simpa [hlen] using hjes)] at hgf
    simp only [List.getElem_map] at hgf
    rw [List.getD_eq_getElem _ _ hjes, List.getD_eq_getElem _ _ hj]
    exact hgf

/-- Witness for C8 at the tetrahedron. -/
theorem unfold_output_contract_witness :
    unfoldPipeline tetMesh 0 = .ok (flatPts (netEntries tetMesh tetTree)) ∧
      (flatPts (netEntries tetMesh tetTree)).length = 3 * tetTree.length ∧
      tetTree.length = Set.ncard {g | Reach tetMesh 0 g} ∧
      ∀ j, j < tetTree.length →
        ((netEntries tetMesh tetTree).getD j junkEntry).face =
          (tetTree.getD j ⟨0, none⟩).face ∧
        (flatPts (netEntries tetMesh tetTree)).getD (3 * j) ⟨0, 0⟩ =
          ((netEntries tetMesh tetTree).getD j junkEntry).p1 ∧
        (flatPts (netEntries tetMesh tetTree)).getD (3 * j + 1) ⟨0, 0⟩ =
          ((netEntries tetMesh tetTree).getD j junkEntry).p2 ∧
        (flatPts (netEntries tetMesh tetTree)).getD (3 * j + 2) ⟨0, 0⟩ =
          ((netEntries tetMesh tetTree).getD j junkEntry).p3 ∧
        lookupPos tetMesh ((netEntries tetMesh tetTree).getD j junkEntry)
            (faceTriple tetMesh ((netEntries tetMesh tetTree).getD j junkEntry).face).1 =
          ((netEntries tetMesh tetTree).getD j junkEntry).p1 ∧
        lookupPos tetMesh ((netEntries tetMesh tetTree).getD j junkEntry)
            (faceTriple tetMesh ((netEntries tetMesh tetTree).getD j junkEntry).face).2.1 =
          ((netEntries tetMesh tetTree).getD j junkEntry).p2 ∧
        lookupPos tetMesh ((netEntries tetMesh tetTree).getD j junkEntry)
            (faceTriple tetMesh ((netEntries tetMesh tetTree).getD j junkEntry).face).2.2 =
          ((netEntries tetMesh tetTree).getD j junkEntry).p3 :=
  unfold_output_contract tetMesh tetMesh 0 tetTree (netEntries tetMesh tetTree)
    rfl rfl (netBuildE_ok_of tetMesh tetTree tetTree_ok)

theorem fold_max_spec (f : V2 → ℝ) (rest : List V2) :
    ∀ (a : ℝ),
      (∃ q, (rest.foldl (fun acc r => max acc (f r)) a = a ∨
          (q ∈ rest ∧ rest.foldl (fun acc r => max acc (f r)) a = f q))) ∧
        a ≤ rest.foldl (fun acc r => max acc (f r)) a ∧
        ∀ r ∈ rest, f r ≤ rest.foldl (fun acc r => max acc (f r)) a := by
  induction rest with
  | nil => intro a; exact ⟨⟨⟨0, 0⟩, Or.inl rfl⟩, le_refl a, by simp⟩
  | cons c l ih =>
    intro a
    obtain ⟨⟨q, hq⟩, hle, hmem⟩ := ih (max a (f c))
    refine ⟨?_, ?_, ?_⟩
    · rcases hq with hq | ⟨hqm, hqe⟩
      · rcases le_total a (f c) with hac | hca
        · refine ⟨c, Or.inr ⟨by simp, ?_⟩⟩
          rw [List.foldl_cons, hq, max_eq_right hac]
        · refine ⟨c, Or.inl ?_⟩
          rw [List.foldl_cons, hq, max_eq_left hca]
      · exact ⟨q, Or.inr ⟨List.mem_cons_of_mem c hqm, by rw [List.foldl_cons, hqe]⟩⟩
    · calc a ≤ max a (f c) := le_max_left _ _
        _ ≤ _ := hle
    · intro r hr
      rcases List.mem_cons.mp hr with rfl | hr
      · calc f r ≤ max a (f r) := le_max_right _ _
          _ ≤ _ := hle
      · exact hmem r hr

theorem fold_min_spec (f : V2 → ℝ) (rest : List V2) :
    ∀ (a : ℝ),
      (∃ q, (rest.foldl (fun acc r => min acc (f r)) a = a ∨
          (q ∈ rest ∧ rest.foldl (fun acc r => min acc (f r)) a = f q))) ∧
        rest.foldl (fun acc r => min acc (f r)) a ≤ a ∧
        ∀ r ∈ rest, rest.foldl (fun acc r => min acc (f r)) a ≤ f r := by
  induction rest with
  | nil => intro a; exact ⟨⟨⟨0, 0⟩, Or.inl rfl⟩, le_refl a, by simp⟩
  | cons c l ih =>
    intro a
    obtain ⟨⟨q, hq⟩, hle, hmem⟩ := ih (min a (f c))
    refine ⟨?_, ?_, ?_⟩
    · rcases hq with hq | ⟨hqm, hqe⟩
      · rcases le_total (f c) a with hac | hca
        · refine ⟨c, Or.inr ⟨by simp, ?_⟩⟩
          rw [List.foldl_cons, hq, min_eq_right hac]
        · refine ⟨c, Or.inl ?_⟩
          rw [List.foldl_cons, hq, min_eq_left hca]
      · exact ⟨q, Or.inr ⟨List.mem_cons_of_mem c hqm, by rw [List.foldl_cons, hqe]⟩⟩
    · calc _ ≤ min a (f c) := hle
        _ ≤ a := min_le_left _ _
    · intro r hr
      rcases List.mem_cons.mp hr with rfl | hr
      · calc _ ≤ min a (f r) := hle
          _ ≤ f r := min_le_right _ _
      · exact hmem r hr

/-- Attained extremum over a nonempty point list for a coordinate `f`. -/
theorem fold_max_attained (f : V2 → ℝ) (p : V2) (rest : List V2) :
    ∃ q, (q = p ∨ q ∈ rest) ∧
      rest.foldl (fun acc r => max acc (f r)) (f p) = f q ∧
      ∀ r, (r = p ∨ r ∈ rest) → f r ≤ rest.foldl (fun acc r => max acc (f r)) (f p) := by
  obtain ⟨⟨q, hq⟩, hle, hmem⟩ := fold_max_spec f rest (f p)
  have hbound : ∀ r, (r = p ∨ r ∈ rest) →
      f r ≤ rest.foldl (fun acc r => max acc (f r)) (f p) := by
    intro r hr
    rcases hr with rfl | hr
    · exact hle
    · exact hmem r hr
  rcases hq with hq | ⟨hqm, hqe⟩
  · exact ⟨p, Or.inl rfl, hq, hbound⟩
  · exact ⟨q, Or.inr hqm, hqe, hbound⟩

theorem fold_min_attained (f : V2 → ℝ) (p : V2) (rest : List V2) :
    ∃ q, (q = p ∨ q ∈ rest) ∧
      rest.foldl (fun acc r => min acc (f r)) (f p) = f q ∧
      ∀ r, (r = p ∨ r ∈ rest) →
        rest.foldl (fun acc r => min acc (f r)) (f p) ≤ f r := by
  obtain ⟨⟨q, hq⟩, hle, hmem⟩ := fold_min_spec f rest (f p)
  have hbound : ∀ r, (r = p ∨ r ∈ rest) →
      rest.foldl (fun acc r => min acc (f r)) (f p) ≤ f r := by
    intro r hr
    rcases hr with rfl | hr
    · exact hle
    · exact hmem r hr
  rcases hq with hq | ⟨hqm, hqe⟩
  · exact ⟨p, Or.inl rfl, hq, hbound⟩
  · exact ⟨q, Or.inr hqm, hqe, hbound⟩

/-- Claim C9: the layout statistics return the bounding width and height as
attained max minus min of x and y over all points, the centroid as the
arithmetic mean, and the empty sequence yields the degenerate zero result. -/
theorem layout_stats_spec (pts : List V2) (hne : pts ≠ []) :
    (∃ xmax, ∃ xmin, ∃ ymax, ∃ ymin,
      xmax ∈ pts ∧ xmin ∈ pts ∧ ymax ∈ pts ∧ ymin ∈ pts ∧
      find_extents pts = (xmax.x - xmin.x, ymax.y - ymin.y) ∧
      ∀ q ∈ pts, q.x ≤ xmax.x ∧ xmin.x ≤ q.x ∧ q.y ≤ ymax.y ∧ ymin.y ≤ q.y) ∧
    find_centroid pts =
      ⟨(pts.map (·.x)).sum / pts.length, (pts.map (·.y)).sum / pts.length⟩ ∧
    find_extents [] = (0, 0) ∧ find_centroid [] = ⟨0, 0⟩ := by
  refine ⟨?_, rfl, rfl, by unfold find_centroid; simp⟩
  cases pts with
  | nil => exact absurd rfl hne
  | cons p rest =>
    obtain ⟨qx, hqx, hqxe, hqxb⟩ := fold_max_attained (·.x) p rest
    obtain ⟨rx, hrx, hrxe, hrxb⟩ := fold_min_attained (·.x) p rest
    obtain ⟨qy, hqy, hqye, hqyb⟩ := fold_max_attained (·.y) p rest
    obtain ⟨ry, hry, hrye, hryb⟩ := fold_min_attained (·.y) p rest
    have hmem : ∀ z : V2, (z = p ∨ z ∈ rest) → z ∈ p :: rest := by
      intro z hz
      rcases hz with rfl | hz
      · simp
      · exact List.mem_cons_of_mem p hz
    rw [hqxe] at hqxb
    rw [hrxe] at hrxb
    rw [hqye] at hqyb
    rw [hrye] at hryb
    refine ⟨qx, rx, qy, ry, hmem qx hqx, hmem rx hrx, hmem qy hqy, hmem ry hry, ?_, ?_⟩
    · simp only [find_extents]
      rw [hqxe, hrxe, hqye, hrye]
    · intro q hq
      have hq2 : q = p ∨ q ∈ rest := by
        rcases List.mem_cons.mp hq with rfl | hq
        · exact Or.inl rfl
        · exact Or.inr hq
      exact ⟨hqxb q hq2, hrxb q hq2, hqyb q hq2, hryb q hq2⟩

/-- Witness for C9 at a concrete two-point sequence. -/
theorem layout_stats_spec_witness :
    (∃ xmax, ∃ xmin, ∃ ymax, ∃ ymin,
      xmax ∈ [(⟨1, 2⟩ : V2), ⟨3, 1⟩] ∧ xmin ∈ [(⟨1, 2⟩ : V2), ⟨3, 1⟩] ∧
      ymax ∈ [(⟨1, 2⟩ : V2), ⟨3, 1⟩] ∧ ymin ∈ [(⟨1, 2⟩ : V2), ⟨3, 1⟩] ∧
      find_extents [(⟨1, 2⟩ : V2), ⟨3, 1⟩] = (xmax.x - xmin.x, ymax.y - ymin.y) ∧
      ∀ q ∈ [(⟨1, 2⟩ : V2), ⟨3, 1⟩],
        q.x ≤ xmax.x ∧ xmin.x ≤ q.x ∧ q.y ≤ ymax.y ∧ ymin.y ≤ q.y) ∧
    find_centroid [(⟨1, 2⟩ : V2), ⟨3, 1⟩] =
      ⟨(([(⟨1, 2⟩ : V2), ⟨3, 1⟩].map (·.x)).sum / ([(⟨1, 2⟩ : V2), ⟨3, 1⟩] : List V2).length),
        (([(⟨1, 2⟩ : V2), ⟨3, 1⟩].map (·.y)).sum / ([(⟨1, 2⟩ : V2), ⟨3, 1⟩] : List V2).length)⟩ ∧
    find_extents [] = (0, 0) ∧ find_centroid [] = ⟨0, 0⟩ :=
  layout_stats_spec [⟨1, 2⟩, ⟨3, 1⟩] (by simp)

theorem sum_map_sub_const (l : List V2) (f : V2 → ℝ) (c : ℝ) :
    (l.map (fun p => f p - c)).sum = (l.map f).sum - l.length * c := by
  induction l with
  | nil => simp
  | cons p l ih =>
    simp only [List.map_cons, List.sum_cons, List.length_cons, ih]
    push_cast
    ring

theorem sum_map_mul_const (l : List V2) (f : V2 → ℝ) (s : ℝ) :
    (l.map (fun p => f p * s)).sum = (l.map f).sum * s := by
  induction l with
  | nil => simp
  | cons p l ih =>
    simp only [List.map_cons, List.sum_cons, ih]
    ring

/-- Claim C10: the program always unfolds with seed face 0, and the rendering
transform (p − centroid) · s recenters the net: the arithmetic mean of the
transformed points is the origin. -/
theorem setup_centering :
    (∀ md : MeshData, programUnfold md = unfoldPipeline md 0) ∧
      ∀ (pts : List V2) (resolution : ℝ),
        find_centroid (scaledNet pts resolution) = ⟨0, 0⟩ := by
  refine ⟨fun md => rfl, ?_⟩
  intro pts resolution
  have hlen : (scaledNet pts resolution).length = pts.length := by
    unfold scaledNet
    exact List.length_map _ _
  have hx : ((scaledNet pts resolution).map (·.x)).sum =
      ((pts.map (·.x)).sum - pts.length * (find_centroid pts).x) *
        ((resolution - 100) / max (find_extents pts).1 (find_extents pts).2) := by
    unfold scaledNet
    rw [List.map_map]
    rw [show ((fun p : V2 => p.x) ∘ fun p : V2 =>
        (⟨(p.x - (find_centroid pts).x) *
            ((resolution - 100) / max (find_extents pts).1 (find_extents pts).2),
          (p.y - (find_centroid pts).y) *
            ((resolution - 100) / max (find_extents pts).1 (find_extents pts).2)⟩ : V2)) =
        fun p : V2 => (p.x - (find_centroid pts).x) *
          ((resolution - 100) / max (find_extents pts).1 (find_extents pts).2) from rfl]
    rw [sum_map_mul_const pts (fun p => p.x - (find_centroid pts).x), sum_map_sub_const]
  have hy : ((scaledNet pts resolution).map (·.y)).sum =
      ((pts.map (·.y)).sum - pts.length * (find_centroid pts).y) *
        ((resolution - 100) / max (find_extents pts).1 (find_extents pts).2) := by
    unfold scaledNet
    rw [List.map_map]
    rw [show ((fun p : V2 => p.y) ∘ fun p : V2 =>
        (⟨(p.x - (find_centroid pts).x) *
            ((resolution - 100) / max (find_extents pts).1 (find_extents pts).2),
          (p.y - (find_centroid pts).y) *
            ((resolution - 100) / max (find_extents pts).1 (find_extents pts).2)⟩ : V2)) =
        fun p : V2 => (p.y - (find_centroid pts).y) *
          ((resolution - 100) / max (find_extents pts).1 (find_extents pts).2) from rfl]
    rw [sum_map_mul_const pts (fun p => p.y - (find_centroid pts).y), sum_map_sub_const]
  rcases eq_or_ne pts.length 0 with hn | hn
  · have hpts : pts = [] := List.eq_nil_of_length_eq_zero hn
    subst hpts
    unfold find_centroid scaledNet
    simp
  · have hnR : (pts.length : ℝ) ≠ 0 := Nat.cast_ne_zero.mpr hn
    unfold find_centroid
    rw [V2.mk.injEq]
    constructor
    · rw [hx, hlen]
      unfold find_centroid
      rw [mul_div_cancel₀ _ hnR]
      simp
    · rw [hy, hlen]
      unfold find_centroid
      rw [mul_div_cancel₀ _ hnR]
      simp
